import Mathlib

/-!
Verification of the template-matching, slot-filling and text-layout core of
the ai-meme-generator backend.

The Python sources embedded here:
- `backend/app/services/templates.py` (TemplateService: `match_template`,
  `match_templates_by_keywords`, `sanitize_text`, `fill_template_slots`)
- `backend/app/services/llama.py` (`_extract_json_from_response`,
  `_get_fallback_image_prompt`, the field-backfill block of
  `generate_meme_concept`)
- `backend/app/services/stable_diffusion.py` (`_wrap_text_to_fit`)
- `backend/app/schemas/meme.py` (`LlamaOutput` strict schema)

Python strings are modelled as Lean `String`s (lists of characters);
Python `int` as `Int`; Python `float` scores as `Rat` (the scoring
arithmetic uses only small dyadic/decimal constants, additions and
divisions, where rational arithmetic agrees with the order comparisons the
code performs); Python dicts as insertion-ordered association lists;
functions that can raise return `Except String`.
-/

/-! ## Python string primitives -/

/-- Whitespace as recognised by Python's `str.strip()` / `str.split()`
(restricted to the ASCII whitespace actually occurring in this pipeline). -/
def pyWs (c : Char) : Bool :=
  c = ' ' || c = '\t' || c = '\r' || c = '\n'

/-- `str.strip()` on a character list: drop whitespace from both ends. -/
def stripList (l : List Char) : List Char :=
  ((l.dropWhile pyWs).reverse.dropWhile pyWs).reverse

/-- Python `s.strip()`. -/
def pyStrip (s : String) : String :=
  String.mk (stripList s.data)

/-- Python `s.lower()` (ASCII case mapping, which is all this code base uses). -/
def pyLower (s : String) : String :=
  String.mk (s.data.map Char.toLower)

/-- Python `needle in hay` on strings (contiguous substring test). -/
def isSubstr (needle hay : List Char) : Bool :=
  match hay with
  | [] => needle.isEmpty
  | _ :: t => needle.isPrefixOf hay || isSubstr needle t

/-- Python `needle in hay` for `String`s. -/
def pyInStr (needle hay : String) : Bool :=
  isSubstr needle.data hay.data

/-- Python `s[:j]` where `j` may be negative (`s[:-k]` drops the last `k`
characters, clamped at the empty string). -/
def pySliceToI (s : String) (j : Int) : String :=
  if 0 ≤ j then String.mk (s.data.take j.toNat)
  else String.mk (s.data.take (s.data.length - (-j).toNat))

/-- Helper for Python `str.split()` (no separator): split on runs of
whitespace, discarding empty pieces.  `acc` holds the current word reversed. -/
def pySplitAux : List Char → List Char → List String
  | [], acc => if acc.isEmpty then [] else [String.mk acc.reverse]
  | c :: rest, acc =>
    if pyWs c then
      if acc.isEmpty then pySplitAux rest []
      else String.mk acc.reverse :: pySplitAux rest []
    else pySplitAux rest (c :: acc)

/-- Python `s.split()`. -/
def pySplit (s : String) : List String :=
  pySplitAux s.data []

/-! ## `TemplateService.sanitize_text` (templates.py lines 185-215)

```python
def sanitize_text(self, text: str, max_chars: int = 100) -> str:
    if not text:
        return ""
    text = text.replace("_", " ")
    # (uses the standard re module)
    text = re.sub(r'^["\'\[\(\{]+|["\'\]\)\}]+\.?$', '', text.strip())
    text = text.strip()
    if len(text) > 0:
        text = text[0].upper() + text[1:]
    if len(text) > max_chars:
        text = text[:max_chars-3] + "..."
    return text
```
-/

/-- Python `text.replace("_", " ")`. -/
def replaceUnderscores (s : String) : String :=
  String.mk (s.data.map (fun c => if c = '_' then ' ' else c))

/-- The opening-noise character class `["'\[\(\{]` of the sanitizer regex. -/
def openNoise (c : Char) : Bool :=
  c = '"' || c = '\'' || c = '[' || c = '(' || c = '\x7b'

/-- The closing-noise character class `["'\]\)\}]` of the sanitizer regex. -/
def closeNoise (c : Char) : Bool :=
  c = '"' || c = '\'' || c = ']' || c = ')' || c = '\x7d'

/-- The `^["'\[\(\{]+` alternative of the sanitizer regex: remove the maximal
leading run of opening-noise characters. -/
def dropLeadingNoise (l : List Char) : List Char :=
  l.dropWhile openNoise

/-- The `["'\]\)\}]+\.?$` alternative of the sanitizer regex: remove the
maximal trailing run of closing-noise characters together with one optional
final dot (`re.sub` removes the leftmost match ending at the end of the
string, which is exactly this trailing run; the run must be non-empty, so a
bare final dot is not removed). -/
def dropTrailingNoise (l : List Char) : List Char :=
  match l.reverse with
  | '.' :: c :: rest =>
    if closeNoise c then (List.dropWhile closeNoise (c :: rest)).reverse else l
  | c :: rest =>
    if closeNoise c then (List.dropWhile closeNoise (c :: rest)).reverse else l
  | [] => l

/-- The whole `re.sub(r'^["\'\[\(\{]+|["\'\]\)\}]+\.?$', '', ·)` call: the
two alternatives act on disjoint parts of the string (the anchored leading
run and the anchored trailing run), so the single left-to-right substitution
pass equals removing the leading run and then the trailing run. -/
def stripNoise (s : String) : String :=
  String.mk (dropTrailingNoise (dropLeadingNoise s.data))

/-- Python `text[0].upper() + text[1:]` (ASCII case mapping). -/
def pyCapitalize (s : String) : String :=
  match s.data with
  | [] => s
  | c :: rest => String.mk (Char.toUpper c :: rest)

/-- The pre-truncation pipeline of `sanitize_text`: underscore replacement,
strip, regex noise removal, strip, capitalization. -/
def sanitizeCore (text : String) : String :=
  pyCapitalize (pyStrip (stripNoise (pyStrip (replaceUnderscores text))))

/-- `TemplateService.sanitize_text(text, max_chars)`. -/
def sanitizeText (text : String) (maxChars : Int) : String :=
  if text = "" then ""
  else
    let t4 := sanitizeCore text
    if maxChars < (t4.length : Int) then pySliceToI t4 (maxChars - 3) ++ "..."
    else t4

example : sanitizeText "  _hello world_  " 100 = "Hello world" := by decide
example : sanitizeText "\"quoted\"" 100 = "Quoted" := by decide
example : sanitizeText "abcdefgh" 5 = "Ab..." := by decide
example : sanitizeText "a).)" 100 = "A)." := by decide
example : sanitizeText "A)." 100 = "A" := by decide
example : sanitizeText "( (abc" 100 = "(abc" := by decide
example : sanitizeText "xy" 1 = "..." := by decide

/-! ## Character-level facts about the ASCII case mapping -/

theorem char_ne_of_toNat_ne {a b : Char} (h : a.toNat ≠ b.toNat) : a ≠ b :=
  fun he => h (he ▸ rfl)

/-- `Char.toUpper` either fixes a character or produces an ASCII capital. -/
theorem toUpper_eq_or (c : Char) :
    Char.toUpper c = c ∨ (65 ≤ (Char.toUpper c).toNat ∧ (Char.toUpper c).toNat ≤ 90) := by
  by_cases h : c.toNat ≥ 97 ∧ c.toNat ≤ 122
  · right
    have hrw : Char.toUpper c = Char.ofNat (c.toNat - 32) := by
      simp only [Char.toUpper]
      rw [if_pos h]
    rw [hrw]
    obtain ⟨h1, h2⟩ := h
    revert h1 h2
    generalize c.toNat = m
    intro h1 h2
    interval_cases m <;> decide
  · left
    simp only [Char.toUpper]
    rw [if_neg h]

theorem toUpper_fix {d : Char} (h1 : 65 ≤ d.toNat) (h2 : d.toNat ≤ 90) :
    Char.toUpper d = d := by
  simp only [Char.toUpper]
  rw [if_neg (by omega)]

theorem toUpper_idem (c : Char) :
    Char.toUpper (Char.toUpper c) = Char.toUpper c := by
  rcases toUpper_eq_or c with h | ⟨h1, h2⟩
  · rw [h, h]
  · exact toUpper_fix h1 h2

theorem pyWs_upperRange {d : Char} (h1 : 65 ≤ d.toNat) (h2 : d.toNat ≤ 90) :
    pyWs d = false := by
  have e1 : (' ' : Char).toNat = 32 := by decide
  have e2 : ('\t' : Char).toNat = 9 := by decide
  have e3 : ('\r' : Char).toNat = 13 := by decide
  have e4 : ('\n' : Char).toNat = 10 := by decide
  have w1 : d ≠ ' ' := char_ne_of_toNat_ne (by omega)
  have w2 : d ≠ '\t' := char_ne_of_toNat_ne (by omega)
  have w3 : d ≠ '\r' := char_ne_of_toNat_ne (by omega)
  have w4 : d ≠ '\n' := char_ne_of_toNat_ne (by omega)
  simp [pyWs, w1, w2, w3, w4]

theorem pyWs_toUpper {c : Char} (h : pyWs c = false) : pyWs (Char.toUpper c) = false := by
  rcases toUpper_eq_or c with h' | ⟨h1, h2⟩
  · rw [h']; exact h
  · exact pyWs_upperRange h1 h2

theorem toUpper_ne_underscore {c : Char} (h : c ≠ '_') : Char.toUpper c ≠ '_' := by
  rcases toUpper_eq_or c with h' | ⟨h1, h2⟩
  · rw [h']; exact h
  · have e : ('_' : Char).toNat = 95 := by decide
    exact char_ne_of_toNat_ne (by omega)

/-! ## List-level helper lemmas for the sanitizer -/

theorem head?_dropWhile_not {p : Char → Bool} {c : Char} :
    ∀ {l : List Char}, (l.dropWhile p).head? = some c → p c = false := by
  intro l
  induction l with
  | nil => intro h; simp [List.dropWhile] at h
  | cons a t ih =>
    intro h
    by_cases hp : p a
    · rw [List.dropWhile_cons_of_pos hp] at h
      exact ih h
    · rw [List.dropWhile_cons_of_neg hp] at h
      simp at h
      rw [← h]
      simpa using hp

theorem dropWhile_eq_self_of_head {p : Char → Bool} :
    ∀ {l : List Char}, (∀ c, l.head? = some c → p c = false) → l.dropWhile p = l := by
  intro l h
  cases l with
  | nil => rfl
  | cons a t =>
    have := h a rfl
    rw [List.dropWhile_cons_of_neg (by simp [this])]

theorem getLast?_suffix_of_ne_nil {l₂ l : List Char} (h : l₂ <:+ l) (hne : l₂ ≠ []) :
    l₂.getLast? = l.getLast? := by
  obtain ⟨pre, rfl⟩ := h
  rw [List.getLast?_append]
  cases e : l₂.getLast? with
  | none => exact absurd (List.getLast?_eq_none_iff.mp e) hne
  | some c => rfl

theorem mem_stripList {c : Char} {l : List Char} (h : c ∈ stripList l) : c ∈ l := by
  simp only [stripList, List.mem_reverse] at h
  have h2 := List.dropWhile_subset pyWs h
  rw [List.mem_reverse] at h2
  exact List.dropWhile_subset pyWs h2

theorem stripList_head {c : Char} {l : List Char}
    (h : (stripList l).head? = some c) : pyWs c = false := by
  unfold stripList at h
  rw [List.head?_reverse] at h
  have hsfx := @List.dropWhile_suffix _ ((l.dropWhile pyWs).reverse) pyWs
  rcases e : ((l.dropWhile pyWs).reverse.dropWhile pyWs) with _ | ⟨a, t⟩
  · rw [e] at h; simp at h
  · have hne : ((l.dropWhile pyWs).reverse.dropWhile pyWs) ≠ [] := by rw [e]; simp
    rw [getLast?_suffix_of_ne_nil hsfx hne, List.getLast?_reverse] at h
    exact head?_dropWhile_not h

theorem stripList_last {c : Char} {l : List Char}
    (h : (stripList l).getLast? = some c) : pyWs c = false := by
  unfold stripList at h
  rw [List.getLast?_reverse] at h
  exact head?_dropWhile_not h

theorem stripList_eq_self {l : List Char}
    (hh : ∀ c, l.head? = some c → pyWs c = false)
    (hl : ∀ c, l.getLast? = some c → pyWs c = false) : stripList l = l := by
  unfold stripList
  rw [dropWhile_eq_self_of_head hh]
  rw [dropWhile_eq_self_of_head (by intro c hc; rw [List.head?_reverse] at hc; exact hl c hc)]
  exact List.reverse_reverse l

theorem mem_dropTrailingNoise {c : Char} {l : List Char}
    (h : c ∈ dropTrailingNoise l) : c ∈ l := by
  have key : ∀ (m : List Char), c ∈ (List.dropWhile closeNoise m).reverse → c ∈ m := by
    intro m hm
    rw [List.mem_reverse] at hm
    exact List.dropWhile_subset closeNoise hm
  unfold dropTrailingNoise at h
  split at h
  · rename_i d rest heq
    split at h
    · have h2 := key _ h
      have h3 : c ∈ l.reverse := by rw [heq]; exact List.mem_cons_of_mem _ h2
      exact List.mem_reverse.mp h3
    · exact h
  · rename_i d rest hover heq
    split at h
    · have h2 := key _ h
      have h3 : c ∈ l.reverse := by rw [heq]; exact h2
      exact List.mem_reverse.mp h3
    · exact h
  · exact h

theorem mem_stripNoise {c : Char} {s : String} (h : c ∈ (stripNoise s).data) :
    c ∈ s.data := by
  unfold stripNoise at h
  have h1 := mem_dropTrailingNoise h
  exact List.dropWhile_subset openNoise h1

theorem string_mk_data (s : String) : String.mk s.data = s := rfl

/-! ## Facts about the output of `sanitize_text` -/

theorem no_underscore_replaceUnderscores (s : String) : '_' ∉ (replaceUnderscores s).data := by
  intro hmem
  unfold replaceUnderscores at hmem
  obtain ⟨a, _, hfa⟩ := List.mem_map.mp hmem
  by_cases ha : a = '_'
  · rw [if_pos ha] at hfa
    exact absurd hfa (by decide)
  · rw [if_neg ha] at hfa
    exact ha hfa

theorem pyStrip_data (s : String) : (pyStrip s).data = stripList s.data := rfl

theorem stripNoise_data (s : String) :
    (stripNoise s).data = dropTrailingNoise (dropLeadingNoise s.data) := rfl

theorem sanitizeCore_no_underscore (x : String) : '_' ∉ (sanitizeCore x).data := by
  have h3 : '_' ∉ (pyStrip (stripNoise (pyStrip (replaceUnderscores x)))).data := by
    intro hm
    rw [pyStrip_data] at hm
    have hm2 := mem_stripList hm
    have hm3 := mem_stripNoise hm2
    rw [pyStrip_data] at hm3
    exact no_underscore_replaceUnderscores x (mem_stripList hm3)
  intro hmem
  unfold sanitizeCore pyCapitalize at hmem
  rcases e : (pyStrip (stripNoise (pyStrip (replaceUnderscores x)))).data with _ | ⟨c, rest⟩
  · rw [e] at hmem
    simp only [e] at hmem
    exact h3 (e ▸ hmem)
  · rw [e] at hmem
    simp only [List.mem_cons] at hmem
    rcases hmem with hmem | hmem
    · have hc : c ≠ '_' := fun hc => h3 (hc ▸ (e ▸ List.mem_cons_self c rest))
      exact toUpper_ne_underscore hc hmem.symm
    · exact h3 (e ▸ List.mem_cons_of_mem c hmem)

theorem sanitizeCore_head (x : String) {h : Char} {t : List Char}
    (he : (sanitizeCore x).data = h :: t) : Char.toUpper h = h ∧ pyWs h = false := by
  unfold sanitizeCore pyCapitalize at he
  rcases e : (pyStrip (stripNoise (pyStrip (replaceUnderscores x)))).data with _ | ⟨c, rest⟩
  · rw [e] at he
    simp only at he
    rw [e] at he
    exact absurd he (by simp)
  · rw [e] at he
    simp only at he
    have hh : h = Char.toUpper c := by
      have := congrArg List.head? he
      simpa using this.symm
    have hcws : pyWs c = false := by
      apply @stripList_head _ ((stripNoise (pyStrip (replaceUnderscores x))).data)
      rw [← pyStrip_data, e]
      rfl
    exact ⟨hh ▸ toUpper_idem c, hh ▸ pyWs_toUpper hcws⟩

theorem sanitizeCore_last (x : String) {e : Char}
    (hl : (sanitizeCore x).data.getLast? = some e) : pyWs e = false := by
  unfold sanitizeCore pyCapitalize at hl
  rcases he : (pyStrip (stripNoise (pyStrip (replaceUnderscores x)))).data with _ | ⟨c, rest⟩
  · rw [he] at hl
    simp only at hl
    rw [he] at hl
    exact absurd hl (by simp)
  · rw [he] at hl
    simp only at hl
    rcases rest with _ | ⟨r, rs⟩
    · have : e = Char.toUpper c := by simpa using hl.symm
      have hcws : pyWs c = false := by
        apply @stripList_head _ ((stripNoise (pyStrip (replaceUnderscores x))).data)
        rw [← pyStrip_data, he]
        rfl
      exact this ▸ pyWs_toUpper hcws
    · have hl2 : (pyStrip (stripNoise (pyStrip (replaceUnderscores x)))).data.getLast? = some e := by
        rw [he]
        rw [List.getLast?_cons_cons] at hl ⊢
        exact hl
      rw [pyStrip_data] at hl2
      exact stripList_last hl2

theorem head_of_take {k : Nat} {l : List Char} {h : Char} {rest : List Char}
    (e : l.take k = h :: rest) : ∃ t', l = h :: t' := by
  cases l with
  | nil => simp at e
  | cons a t =>
    cases k with
    | zero => simp at e
    | succ k =>
      simp only [List.take_succ_cons, List.cons.injEq] at e
      exact ⟨t, by rw [e.1]⟩

theorem string_data_append (a b : String) : (a ++ b).data = a.data ++ b.data := rfl

theorem string_length_data (s : String) : s.length = s.data.length := rfl

/-- For the budgets the call sites use (`max_chars ≥ 3`) the sanitizer output
never exceeds the budget. -/
theorem sanitize_length_le (x : String) (m : Int) (h3 : 3 ≤ m) :
    ((sanitizeText x m).length : Int) ≤ m := by
  unfold sanitizeText
  split
  · simp only [string_length_data]
    simp
    omega
  · simp only []
    split
    · rename_i hlen
      rw [string_length_data, string_data_append, List.length_append]
      have htake : (pySliceToI (sanitizeCore x) (m - 3)).data.length ≤ (m - 3).toNat := by
        unfold pySliceToI
        rw [if_pos (by omega : (0:Int) ≤ m - 3)]
        simp only [String.data]
        exact List.length_take_le _ _
      have hdots : ("..." : String).data.length = 3 := by decide
      rw [hdots]
      have : ((m : Int) - 3).toNat = (m - 3) := by omega
      omega
    · rename_i hlen
      omega

theorem sanitizeText_no_underscore (x : String) (m : Int) :
    '_' ∉ (sanitizeText x m).data := by
  unfold sanitizeText
  split
  · simp
  · simp only []
    split
    · intro hmem
      rw [string_data_append] at hmem
      rcases List.mem_append.mp hmem with hmem | hmem
      · unfold pySliceToI at hmem
        split at hmem <;>
          exact sanitizeCore_no_underscore x (List.take_subset _ _ hmem)
      · exact absurd hmem (by decide)
    · exact sanitizeCore_no_underscore x

theorem sanitizeText_head (x : String) (m : Int) {h : Char} {t : List Char}
    (he : (sanitizeText x m).data = h :: t) : Char.toUpper h = h ∧ pyWs h = false := by
  unfold sanitizeText at he
  split at he
  · exact absurd he (by simp [String.data])
  · simp only [] at he
    split at he
    · rw [string_data_append] at he
      rcases e2 : (pySliceToI (sanitizeCore x) (m - 3)).data with _ | ⟨c, rest⟩
      · rw [e2] at he
        simp only [List.nil_append] at he
        have : h = '.' := by
          have := congrArg List.head? he
          simpa using this.symm
        subst this
        exact ⟨by decide, by decide⟩
      · rw [e2] at he
        have hh : h = c := by
          have := congrArg List.head? he
          simpa using this.symm
        subst hh
        -- c is the head of sanitizeCore x as well
        have hc : ∃ t', (sanitizeCore x).data = h :: t' := by
          have hk : ∃ k, (pySliceToI (sanitizeCore x) (m - 3)).data =
              (sanitizeCore x).data.take k := by
            unfold pySliceToI
            split
            · exact ⟨_, rfl⟩
            · exact ⟨_, rfl⟩
          obtain ⟨k, hk⟩ := hk
          rw [hk] at e2
          exact head_of_take e2
        obtain ⟨t', ht'⟩ := hc
        exact sanitizeCore_head x ht'
    · exact sanitizeCore_head x he

theorem sanitizeText_last (x : String) (m : Int) {e : Char}
    (hl : (sanitizeText x m).data.getLast? = some e) : pyWs e = false := by
  unfold sanitizeText at hl
  split at hl
  · exact absurd hl (by simp [String.data])
  · simp only [] at hl
    split at hl
    · rw [string_data_append, List.getLast?_append] at hl
      have : ("..." : String).data.getLast? = some '.' := by decide
      rw [this] at hl
      simp only [Option.or_some] at hl
      have : e = '.' := by simpa using hl.symm
      subst this
      decide
    · exact sanitizeCore_last x hl

theorem replaceUnderscores_eq_self {s : String} (h : '_' ∉ s.data) :
    replaceUnderscores s = s := by
  unfold replaceUnderscores
  have : s.data.map (fun c => if c = '_' then ' ' else c) = s.data := by
    have := @List.map_congr_left _ s.data _
      (fun c => if c = '_' then ' ' else c) id
      (fun a ha => by
        have : a ≠ '_' := fun he => h (he ▸ ha)
        simp [this])
    simpa using this
  rw [this]

theorem pyCapitalize_eq_self {s : String}
    (h : ∀ c t, s.data = c :: t → Char.toUpper c = c) : pyCapitalize s = s := by
  unfold pyCapitalize
  rcases e : s.data with _ | ⟨c, t⟩
  · rfl
  · show String.mk (Char.toUpper c :: t) = s
    rw [h c t e, ← e]

theorem pyStrip_eq_self {s : String}
    (hh : ∀ c t, s.data = c :: t → pyWs c = false)
    (hl : ∀ c, s.data.getLast? = some c → pyWs c = false) : pyStrip s = s := by
  unfold pyStrip
  rw [stripList_eq_self (fun c hc => by
        rcases e : s.data with _ | ⟨a, t⟩
        · rw [e] at hc; simp at hc
        · rw [e] at hc
          simp only [List.head?_cons, Option.some.injEq] at hc
          exact hc ▸ hh a t e)
      hl]

/-- Claim C9 (counterexample): `sanitize_text` is not idempotent.  Stripping
the trailing `).` from `"a).)"` leaves `"A)."`, which a second pass strips
again to `"A"`. -/
theorem C9_sanitize_not_idempotent_counterexample :
    sanitizeText (sanitizeText "a).)" 100) 100 ≠ sanitizeText "a).)" 100 ∧
    sanitizeText "a).)" 100 = "A)." ∧
    sanitizeText (sanitizeText "a).)" 100) 100 = "A" := by
  refine ⟨by decide, by decide, by decide⟩

/-- Claim C9 (amended): `sanitize_text(·, m)` with a budget `m ≥ 3` is
idempotent on every input whose sanitized output is not matched again by the
quote/bracket-stripping regex (its output can end in a fresh trailing
quote/bracket run, or start with an opening bracket exposed by an earlier
strip, and only then does a second application differ). -/
theorem C9_sanitize_idempotent_amended (x : String) (m : Int) (h3 : 3 ≤ m)
    (hL : dropLeadingNoise (sanitizeText x m).data = (sanitizeText x m).data)
    (hT : dropTrailingNoise (sanitizeText x m).data = (sanitizeText x m).data) :
    sanitizeText (sanitizeText x m) m = sanitizeText x m := by
  set y := sanitizeText x m with hy
  by_cases hy0 : y = ""
  · rw [hy0]
    unfold sanitizeText
    simp
  · have f1 : '_' ∉ y.data := hy ▸ sanitizeText_no_underscore x m
    have f2 : ∀ c t, y.data = c :: t → Char.toUpper c = c ∧ pyWs c = false := by
      intro c t he
      exact sanitizeText_head x m (hy ▸ he)
    have f3 : ∀ c, y.data.getLast? = some c → pyWs c = false := by
      intro c hc
      exact sanitizeText_last x m (hy ▸ hc)
    have f4 : (y.length : Int) ≤ m := hy ▸ sanitize_length_le x m h3
    have hrep : replaceUnderscores y = y := replaceUnderscores_eq_self f1
    have hstrip : pyStrip y = y :=
      pyStrip_eq_self (fun c t he => (f2 c t he).2) f3
    have hnoise : stripNoise y = y := by
      unfold stripNoise
      rw [show dropLeadingNoise y.data = y.data from hL, hT]
    have hcap : pyCapitalize y = y :=
      pyCapitalize_eq_self (fun c t he => (f2 c t he).1)
    have hcore : sanitizeCore y = y := by
      unfold sanitizeCore
      rw [hrep, hstrip, hnoise, hstrip, hcap]
    show sanitizeText y m = y
    unfold sanitizeText
    rw [if_neg hy0]
    simp only [hcore]
    rw [if_neg (by omega)]

/-- Claim C9 witness: a concrete input on which the amended idempotence
theorem applies. -/
theorem C9_sanitize_idempotent_witness :
    sanitizeText (sanitizeText "hello world" 100) 100 = sanitizeText "hello world" 100 :=
  C9_sanitize_idempotent_amended "hello world" 100 (by decide) (by decide) (by decide)

/-! ## Template data model (templates.py lines 29-44)

Only the fields read by the matching and slot-filling code are modelled;
the render-only fields (`image`, `text_style`, `coordinates`, `example`,
`base_path`) do not occur in any claim. -/

/-- `TextSlot` (templates.py lines 29-32), minus the render-only
`coordinates` field. -/
structure TextSlot where
  key : String
  max_chars : Int
deriving DecidableEq

/-- `MemeTemplate` (templates.py lines 34-44), restricted to the fields the
matchers and slot filler read. -/
structure MemeTemplate where
  id : String
  name : String
  description : String
  use_cases : List String
  confidence_threshold : ℚ
  text_slots : List TextSlot
deriving DecidableEq

/-- The concept record as consumed by `match_template` and
`fill_template_slots` (attributes `caption`, `keywords`, `use_cases`,
`intent`, `template_slots` of the `concept` argument).  A `None`/absent
`template_slots` is modelled as the empty association list (both are falsy
in the `if concept.template_slots:` test). -/
structure MemeConcept where
  caption : String
  keywords : List String
  use_cases : List String
  intent : String
  template_slots : List (String × String)
deriving DecidableEq

/-! ## `TemplateService.match_template` (templates.py lines 105-146)

```python
best_match = None
highest_score = 0.0
concept_use_cases = set(concept.use_cases or [])
concept_keywords = set(k.lower() for k in (concept.keywords or []))
concept_intent = concept.intent.lower() if concept.intent else ""
for template in self.templates.values():
    score = 0.0
    template_use_cases = set(template.use_cases)
    matches = template_use_cases.intersection(concept_use_cases)
    if matches:
        score += 0.5 * (len(matches) / len(template_use_cases))
    if concept_intent and concept_intent in template.use_cases:
        score += 0.3
    template_text = (template.name + " " + template.description).lower()
    keyword_matches = [k for k in concept_keywords if k in template_text]
    if keyword_matches:
        score += 0.2 * (len(keyword_matches) / max(len(concept_keywords), 1))
    if template.id.replace("_", " ") in concept.caption.lower() \
       or template.name.lower() in concept.caption.lower():
        score += 0.4
    if score >= template.confidence_threshold and score > highest_score:
        highest_score = score
        best_match = template
return best_match
```

`set(...)` only ever feeds cardinalities and membership tests, so it is
modelled with `List.dedup` (same cardinality, same membership). -/

/-- `template_use_cases.intersection(concept_use_cases)` as a list. -/
def useCaseMatches (t : MemeTemplate) (c : MemeConcept) : List String :=
  t.use_cases.dedup.filter (fun u => decide (u ∈ c.use_cases))

/-- The use-case component of the score (weight 0.5). -/
def scoreUseCases (t : MemeTemplate) (c : MemeConcept) : ℚ :=
  if useCaseMatches t c ≠ [] then
    0.5 * (((useCaseMatches t c).length : ℚ) / (t.use_cases.dedup.length : ℚ))
  else 0

/-- The intent component of the score (weight 0.3): the lowered intent must
be non-empty and literally equal to one of the template's use-case tags. -/
def scoreIntent (t : MemeTemplate) (c : MemeConcept) : ℚ :=
  if pyLower c.intent ≠ "" ∧ pyLower c.intent ∈ t.use_cases then 0.3 else 0

/-- `(template.name + " " + template.description).lower()`. -/
def templateText (t : MemeTemplate) : String :=
  pyLower (t.name ++ " " ++ t.description)

/-- `[k for k in concept_keywords if k in template_text]` (over the set of
lowered keywords). -/
def keywordMatches (t : MemeTemplate) (c : MemeConcept) : List String :=
  (c.keywords.map pyLower).dedup.filter (fun k => pyInStr k (templateText t))

/-- The keyword component of the score (weight 0.2). -/
def scoreKeywords (t : MemeTemplate) (c : MemeConcept) : ℚ :=
  if keywordMatches t c ≠ [] then
    0.2 * (((keywordMatches t c).length : ℚ) /
      (max (c.keywords.map pyLower).dedup.length 1 : ℚ))
  else 0

/-- The caption-mention bonus (weight 0.4). -/
def scoreCaption (t : MemeTemplate) (c : MemeConcept) : ℚ :=
  if pyInStr (replaceUnderscores t.id) (pyLower c.caption) ||
     pyInStr (pyLower t.name) (pyLower c.caption) then 0.4 else 0

/-- The full heuristic score computed by `match_template` for one template. -/
def conceptScore (t : MemeTemplate) (c : MemeConcept) : ℚ :=
  scoreUseCases t c + scoreIntent t c + scoreKeywords t c + scoreCaption t c

/-- The selection loop of `match_template`: `best` is `best_match`, `hi` is
`highest_score`. -/
def matchTemplateAux (c : MemeConcept) :
    List MemeTemplate → Option MemeTemplate → ℚ → Option MemeTemplate
  | [], best, _ => best
  | t :: ts, best, hi =>
    if t.confidence_threshold ≤ conceptScore t c ∧ hi < conceptScore t c then
      matchTemplateAux c ts (some t) (conceptScore t c)
    else
      matchTemplateAux c ts best hi

/-- `TemplateService.match_template(concept)`; `templates` is
`self.templates.values()` in insertion (load) order. -/
def matchTemplate (templates : List MemeTemplate) (concept : MemeConcept) :
    Option MemeTemplate :=
  matchTemplateAux concept templates none 0

/-- The final value of `highest_score` after the loop. -/
def matchAuxHi (c : MemeConcept) : List MemeTemplate → ℚ → ℚ
  | [], hi => hi
  | t :: ts, hi =>
    if t.confidence_threshold ≤ conceptScore t c ∧ hi < conceptScore t c then
      matchAuxHi c ts (conceptScore t c)
    else
      matchAuxHi c ts hi

theorem le_matchAuxHi (c : MemeConcept) :
    ∀ (ts : List MemeTemplate) (hi : ℚ), hi ≤ matchAuxHi c ts hi := by
  intro ts
  induction ts with
  | nil => intro hi; exact le_refl hi
  | cons t ts ih =>
    intro hi
    unfold matchAuxHi
    split
    · rename_i h
      exact le_of_lt (lt_of_lt_of_le h.2 (ih (conceptScore t c)))
    · exact ih hi

theorem qualifying_le_matchAuxHi (c : MemeConcept) :
    ∀ (ts : List MemeTemplate) (hi : ℚ), ∀ u ∈ ts,
      u.confidence_threshold ≤ conceptScore u c →
      conceptScore u c ≤ matchAuxHi c ts hi := by
  intro ts
  induction ts with
  | nil => intro hi u hu; exact absurd hu (List.not_mem_nil u)
  | cons t ts ih =>
    intro hi u hu hq
    unfold matchAuxHi
    rcases List.mem_cons.mp hu with rfl | hu
    · split
      · exact le_matchAuxHi c ts _
      · rename_i h
        push_neg at h
        exact le_trans (h hq) (le_matchAuxHi c ts hi)
    · split
      · exact ih _ u hu hq
      · exact ih hi u hu hq

theorem matchAux_score_eq (c : MemeConcept) :
    ∀ (ts : List MemeTemplate) (best : Option MemeTemplate) (hi : ℚ),
      (∀ b, best = some b → conceptScore b c = hi ∧ b.confidence_threshold ≤ conceptScore b c) →
      ∀ t, matchTemplateAux c ts best hi = some t →
      conceptScore t c = matchAuxHi c ts hi ∧
      t.confidence_threshold ≤ conceptScore t c := by
  intro ts
  induction ts with
  | nil =>
    intro best hi hinv t ht
    have := hinv t ht
    exact ⟨this.1 ▸ rfl, this.2⟩
  | cons u us ih =>
    intro best hi hinv t ht
    unfold matchTemplateAux at ht
    unfold matchAuxHi
    by_cases h : u.confidence_threshold ≤ conceptScore u c ∧ hi < conceptScore u c
    · rw [if_pos h] at ht
      rw [if_pos h]
      refine ih (some u) (conceptScore u c) (fun b hb => ?_) t ht
      injection hb with hb
      subst hb
      exact ⟨rfl, h.1⟩
    · rw [if_neg h] at ht
      rw [if_neg h]
      exact ih best hi hinv t ht

theorem matchAux_first (c : MemeConcept) :
    ∀ (ts : List MemeTemplate) (best : Option MemeTemplate) (hi : ℚ) (t : MemeTemplate),
      matchTemplateAux c ts best hi = some t →
      best = some t ∨
      (∃ l₁ l₂, ts = l₁ ++ t :: l₂ ∧ hi < conceptScore t c ∧
        t.confidence_threshold ≤ conceptScore t c ∧
        ∀ u ∈ l₁, u.confidence_threshold ≤ conceptScore u c →
          conceptScore u c < conceptScore t c) := by
  intro ts
  induction ts with
  | nil => intro best hi t ht; exact Or.inl ht
  | cons u us ih =>
    intro best hi t ht
    unfold matchTemplateAux at ht
    by_cases h : u.confidence_threshold ≤ conceptScore u c ∧ hi < conceptScore u c
    · rw [if_pos h] at ht
      rcases ih (some u) (conceptScore u c) t ht with heq | ⟨l₁, l₂, hsplit, hlt, hthr, hall⟩
      · injection heq with heq
        subst heq
        exact Or.inr ⟨[], us, rfl, h.2, h.1, by intro v hv; exact absurd hv (List.not_mem_nil v)⟩
      · refine Or.inr ⟨u :: l₁, l₂, by rw [hsplit, List.cons_append], lt_trans h.2 hlt, hthr, ?_⟩
        intro v hv hq
        rcases List.mem_cons.mp hv with rfl | hv
        · exact hlt
        · exact hall v hv hq
    · rw [if_neg h] at ht
      rcases ih best hi t ht with heq | ⟨l₁, l₂, hsplit, hlt, hthr, hall⟩
      · exact Or.inl heq
      · refine Or.inr ⟨u :: l₁, l₂, by rw [hsplit, List.cons_append], hlt, hthr, ?_⟩
        intro v hv hq
        rcases List.mem_cons.mp hv with rfl | hv
        · push_neg at h
          exact lt_of_le_of_lt (h hq) hlt
        · exact hall v hv hq

theorem matchAux_none (c : MemeConcept) :
    ∀ (ts : List MemeTemplate) (best : Option MemeTemplate) (hi : ℚ),
      matchTemplateAux c ts best hi = none →
      best = none ∧ ∀ t ∈ ts,
        ¬(t.confidence_threshold ≤ conceptScore t c ∧ hi < conceptScore t c) := by
  intro ts
  induction ts with
  | nil =>
    intro best hi h
    exact ⟨h, by intro t ht; exact absurd ht (List.not_mem_nil t)⟩
  | cons u us ih =>
    intro best hi h
    unfold matchTemplateAux at h
    by_cases hc : u.confidence_threshold ≤ conceptScore u c ∧ hi < conceptScore u c
    · rw [if_pos hc] at h
      exact absurd (ih _ _ h).1 (by simp)
    · rw [if_neg hc] at h
      obtain ⟨h1, h2⟩ := ih best hi h
      refine ⟨h1, ?_⟩
      intro t ht
      rcases List.mem_cons.mp ht with rfl | ht
      · exact hc
      · exact h2 t ht

theorem matchAux_none_of (c : MemeConcept) :
    ∀ (ts : List MemeTemplate) (best : Option MemeTemplate) (hi : ℚ),
      (∀ t ∈ ts, ¬(t.confidence_threshold ≤ conceptScore t c ∧ hi < conceptScore t c)) →
      matchTemplateAux c ts best hi = best := by
  intro ts
  induction ts with
  | nil => intro best hi _; rfl
  | cons u us ih =>
    intro best hi h
    unfold matchTemplateAux
    rw [if_neg (h u (List.mem_cons_self u us))]
    exact ih best hi (fun t ht => h t (List.mem_cons_of_mem u ht))

/-- Claim C4 (counterexample): a template whose `confidence_threshold` is 0.0
qualifies under the claim's rule (score 0 ≥ threshold 0), yet `match_template`
returns no match because the update requires the score to strictly exceed the
running best, initialised to 0.0. -/
def tmplZero : MemeTemplate :=
  { id := "t0", name := "T Zero", description := "d", use_cases := [],
    confidence_threshold := 0, text_slots := [] }

def conceptEmpty : MemeConcept :=
  { caption := "c", keywords := [], use_cases := [], intent := "",
    template_slots := [] }

theorem conceptScore_tmplZero : conceptScore tmplZero conceptEmpty = 0 := by
  have h1 : useCaseMatches tmplZero conceptEmpty = [] := by decide
  have h2 : keywordMatches tmplZero conceptEmpty = [] := by decide
  have h3 : pyInStr (replaceUnderscores tmplZero.id) (pyLower conceptEmpty.caption) = false := by
    decide
  have h4 : pyInStr (pyLower tmplZero.name) (pyLower conceptEmpty.caption) = false := by decide
  have h5 : pyLower conceptEmpty.intent = "" := by decide
  rw [conceptScore, scoreUseCases, scoreIntent, scoreKeywords, scoreCaption, h1, h2, h3, h4, h5]
  norm_num

/-- Claim C4 is false as stated: with the single-template catalog
`[tmplZero]` (declared threshold 0.0) and a concept with no overlap, the
template's score 0 meets its own threshold — so under the claim it is the
highest-scoring qualifying template and should win — yet `match_template`
returns no match. -/
theorem C4_match_template_counterexample :
    matchTemplate [tmplZero] conceptEmpty = none ∧
    tmplZero.confidence_threshold ≤ conceptScore tmplZero conceptEmpty := by
  constructor
  · rw [matchTemplate, matchTemplateAux, if_neg]
    · rfl
    · rw [conceptScore_tmplZero]
      simp [tmplZero]
  · rw [conceptScore_tmplZero]
    simp [tmplZero]

/-- Claim C4 (amended): `match_template` selects only templates whose score
is ≥ their own declared `confidence_threshold` AND strictly positive (the
running best starts at 0.0); among such templates the highest score wins,
ties broken in favour of the first-seen template in catalog iteration order;
it returns no match exactly when no template has a score that meets its
threshold and exceeds 0. -/
theorem C4_match_template_amended (ts : List MemeTemplate) (c : MemeConcept) :
    (∀ t, matchTemplate ts c = some t →
      t ∈ ts ∧
      t.confidence_threshold ≤ conceptScore t c ∧
      0 < conceptScore t c ∧
      (∀ u ∈ ts, u.confidence_threshold ≤ conceptScore u c →
        conceptScore u c ≤ conceptScore t c) ∧
      (∃ l₁ l₂, ts = l₁ ++ t :: l₂ ∧
        ∀ u ∈ l₁, u.confidence_threshold ≤ conceptScore u c →
          conceptScore u c < conceptScore t c)) ∧
    (matchTemplate ts c = none ↔
      ∀ t ∈ ts, ¬(t.confidence_threshold ≤ conceptScore t c ∧ 0 < conceptScore t c)) := by
  constructor
  · intro t ht
    have hfirst := matchAux_first c ts none 0 t ht
    rcases hfirst with heq | ⟨l₁, l₂, hsplit, hlt, hthr, hall⟩
    · exact absurd heq (by simp)
    · have hmem : t ∈ ts := by rw [hsplit]; exact List.mem_append_right l₁ (List.mem_cons_self t l₂)
      have hscore := matchAux_score_eq c ts none 0 (by intro b hb; exact absurd hb (by simp)) t ht
      refine ⟨hmem, hthr, hlt, ?_, ⟨l₁, l₂, hsplit, hall⟩⟩
      intro u hu hq
      rw [hscore.1]
      exact qualifying_le_matchAuxHi c ts 0 u hu hq
  · constructor
    · intro hnone t ht
      intro ⟨hq, hpos⟩
      exact (matchAux_none c ts none 0 hnone).2 t ht ⟨hq, hpos⟩
    · intro h
      exact matchAux_none_of c ts none 0 h

/-- Concrete comparison-template catalog used by the C4 and C10 witnesses
(the spec's example scenario 2 shapes). -/
def tmplComparison : MemeTemplate :=
  { id := "two_buttons", name := "Two Buttons", description := "choice meme",
    use_cases := ["comparison"], confidence_threshold := 0.3,
    text_slots := [{ key := "option_1", max_chars := 25 },
                   { key := "option_2", max_chars := 25 }] }

def conceptComparison : MemeConcept :=
  { caption := "Pick espresso", keywords := ["coffee", "espresso", "latte"],
    use_cases := ["comparison"], intent := "", template_slots := [] }

theorem conceptScore_comparison :
    conceptScore tmplComparison conceptComparison = 0.5 := by
  have h1 : useCaseMatches tmplComparison conceptComparison = ["comparison"] := by decide
  have h1' : tmplComparison.use_cases.dedup = ["comparison"] := by decide
  have h2 : keywordMatches tmplComparison conceptComparison = [] := by decide
  have h3 : pyInStr (replaceUnderscores tmplComparison.id)
      (pyLower conceptComparison.caption) = false := by decide
  have h4 : pyInStr (pyLower tmplComparison.name)
      (pyLower conceptComparison.caption) = false := by decide
  have h5 : pyLower conceptComparison.intent = "" := by decide
  rw [conceptScore, scoreUseCases, scoreIntent, scoreKeywords, scoreCaption,
    h1, h1', h2, h3, h4, h5]
  norm_num

/-- Claim C4 witness: on the concrete one-template catalog the amended
theorem yields that the returned template's score meets its threshold and is
the maximum among qualifying templates. -/
theorem C4_match_template_witness :
    tmplComparison.confidence_threshold ≤ conceptScore tmplComparison conceptComparison ∧
    0 < conceptScore tmplComparison conceptComparison := by
  have hmatch : matchTemplate [tmplComparison] conceptComparison = some tmplComparison := by
    rw [matchTemplate, matchTemplateAux, if_pos]
    · rfl
    · rw [conceptScore_comparison]
      refine ⟨?_, by norm_num⟩
      show (0.3 : ℚ) ≤ 0.5
      norm_num
  have h := (C4_match_template_amended [tmplComparison] conceptComparison).1
    tmplComparison hmatch
  exact ⟨h.2.1, h.2.2.1⟩

/-- "No use-case, intent, keyword, or caption overlap" between a template
and a concept: every scoring branch of `match_template` sees nothing. -/
def noOverlap (t : MemeTemplate) (c : MemeConcept) : Prop :=
  (∀ u ∈ t.use_cases, u ∉ c.use_cases) ∧
  (pyLower c.intent = "" ∨ pyLower c.intent ∉ t.use_cases) ∧
  (∀ k ∈ c.keywords.map pyLower, pyInStr k (templateText t) = false) ∧
  pyInStr (replaceUnderscores t.id) (pyLower c.caption) = false ∧
  pyInStr (pyLower t.name) (pyLower c.caption) = false

theorem conceptScore_eq_zero_of_noOverlap {t : MemeTemplate} {c : MemeConcept}
    (h : noOverlap t c) : conceptScore t c = 0 := by
  obtain ⟨h1, h2, h3, h4, h5⟩ := h
  have e1 : useCaseMatches t c = [] := by
    rw [useCaseMatches, List.filter_eq_nil_iff]
    intro a ha
    have ha' : a ∈ t.use_cases := List.mem_dedup.mp ha
    simp [h1 a ha']
  have e2 : keywordMatches t c = [] := by
    rw [keywordMatches, List.filter_eq_nil_iff]
    intro a ha
    have ha' : a ∈ c.keywords.map pyLower := List.mem_dedup.mp ha
    simp [h3 a ha']
  have e3 : scoreIntent t c = 0 := by
    rw [scoreIntent, if_neg]
    rintro ⟨hne, hmem⟩
    rcases h2 with h2 | h2
    · exact hne h2
    · exact h2 hmem
  rw [conceptScore, scoreUseCases, scoreKeywords, scoreCaption, e1, e2, e3, h4, h5]
  simp

/-- Claim C10: `match_template` never selects a template whose score is
exactly 0: when a concept has no use-case, intent, keyword, or caption
overlap with any template, it returns no match even if a template declares
`confidence_threshold = 0.0`, because selection additionally requires the
score to strictly exceed the running best, which starts at 0.0. -/
theorem C10_match_template_zero_score (ts : List MemeTemplate) (c : MemeConcept) :
    (∀ t, matchTemplate ts c = some t → conceptScore t c ≠ 0) ∧
    ((∀ t ∈ ts, noOverlap t c) → matchTemplate ts c = none) := by
  constructor
  · intro t ht
    rcases matchAux_first c ts none 0 t ht with heq | ⟨_, _, _, hlt, _, _⟩
    · exact absurd heq (by simp)
    · exact (ne_of_lt hlt).symm
  · intro h
    apply matchAux_none_of
    intro t ht
    rintro ⟨_, hpos⟩
    rw [conceptScore_eq_zero_of_noOverlap (h t ht)] at hpos
    exact lt_irrefl 0 hpos

/-- Claim C10 witness: the zero-threshold template with a fully disjoint
concept is indeed rejected. -/
theorem C10_match_template_zero_score_witness :
    matchTemplate [tmplZero] conceptEmpty = none :=
  (C10_match_template_zero_score [tmplZero] conceptEmpty).2 (by
    intro t ht
    rcases List.mem_cons.mp ht with rfl | ht
    · refine ⟨by decide, by decide, by decide, by decide, by decide⟩
    · exact absurd ht (List.not_mem_nil t))

/-! ## `TemplateService.match_templates_by_keywords` (templates.py lines 152-183)

```python
def match_templates_by_keywords(self, description: str, threshold: int = 3):
    if not description:
        return None
    description_lower = description.lower()
    best_template = None
    highest_score = -1
    for template_id, kw_groups in self.keywords.items():
        if template_id not in self.templates:
            continue
        strong_hits = sum(1 for kw in kw_groups.get("strong", []) if kw.lower() in description_lower)
        context_hits = sum(1 for kw in kw_groups.get("context", []) if kw.lower() in description_lower)
        negative_hits = sum(1 for kw in kw_groups.get("negative", []) if kw.lower() in description_lower)
        score = (strong_hits * 3) + context_hits - (negative_hits * 2)
        if score >= threshold and score > highest_score:
            highest_score = score
            best_template = self.templates[template_id]
    return best_template
```

`self.keywords` is the keyword-rule file's mapping in its own insertion
order; `self.templates` is the catalog keyed by id. -/

/-- One entry of the keyword rule file (`strong` / `context` / `negative`
lists; a missing group key behaves as the empty list via `.get(..., [])`). -/
structure KeywordGroups where
  strong : List String
  context : List String
  negative : List String
deriving DecidableEq

/-- `sum(1 for kw in kws if kw.lower() in description_lower)`. -/
def keywordHits (kws : List String) (descLower : String) : Nat :=
  (kws.filter (fun kw => pyInStr (pyLower kw) descLower)).length

/-- `score = (strong_hits * 3) + context_hits - (negative_hits * 2)`. -/
def keywordScore (g : KeywordGroups) (descLower : String) : Int :=
  3 * (keywordHits g.strong descLower : Int) + (keywordHits g.context descLower : Int)
    - 2 * (keywordHits g.negative descLower : Int)

/-- The selection loop over the keyword rule entries. -/
def kwAux (templates : List (String × MemeTemplate)) (dl : String) (thr : Int) :
    List (String × KeywordGroups) → Option MemeTemplate → Int → Option MemeTemplate
  | [], best, _ => best
  | (tid, g) :: rest, best, hi =>
    match templates.lookup tid with
    | none => kwAux templates dl thr rest best hi
    | some tmpl =>
      if thr ≤ keywordScore g dl ∧ hi < keywordScore g dl then
        kwAux templates dl thr rest (some tmpl) (keywordScore g dl)
      else
        kwAux templates dl thr rest best hi

/-- `TemplateService.match_templates_by_keywords(description, threshold)`. -/
def matchTemplatesByKeywords (templates : List (String × MemeTemplate))
    (rules : List (String × KeywordGroups)) (description : String)
    (threshold : Int) : Option MemeTemplate :=
  if description = "" then none
  else kwAux templates (pyLower description) threshold rules none (-1)

/-- The final `highest_score` of the loop. -/
def kwAuxHi (templates : List (String × MemeTemplate)) (dl : String) (thr : Int) :
    List (String × KeywordGroups) → Int → Int
  | [], hi => hi
  | (tid, g) :: rest, hi =>
    match templates.lookup tid with
    | none => kwAuxHi templates dl thr rest hi
    | some _ =>
      if thr ≤ keywordScore g dl ∧ hi < keywordScore g dl then
        kwAuxHi templates dl thr rest (keywordScore g dl)
      else
        kwAuxHi templates dl thr rest hi

theorem kw_le_auxHi (templates : List (String × MemeTemplate)) (dl : String) (thr : Int) :
    ∀ (rules : List (String × KeywordGroups)) (hi : Int),
      hi ≤ kwAuxHi templates dl thr rules hi := by
  intro rules
  induction rules with
  | nil => intro hi; exact le_refl hi
  | cons p rest ih =>
    intro hi
    obtain ⟨tid, g⟩ := p
    unfold kwAuxHi
    cases templates.lookup tid with
    | none => exact ih hi
    | some tmpl =>
      simp only []
      split
      · rename_i h
        exact le_of_lt (lt_of_lt_of_le h.2 (ih (keywordScore g dl)))
      · exact ih hi

theorem kw_qual_le_auxHi (templates : List (String × MemeTemplate)) (dl : String) (thr : Int) :
    ∀ (rules : List (String × KeywordGroups)) (hi : Int), ∀ p ∈ rules,
      (templates.lookup p.1).isSome →
      thr ≤ keywordScore p.2 dl →
      keywordScore p.2 dl ≤ kwAuxHi templates dl thr rules hi := by
  intro rules
  induction rules with
  | nil => intro hi p hp; exact absurd hp (List.not_mem_nil p)
  | cons q rest ih =>
    intro hi p hp hlk hq
    obtain ⟨tid, g⟩ := q
    unfold kwAuxHi
    rcases e : templates.lookup tid with _ | tmpl
    · simp only [e]
      rcases List.mem_cons.mp hp with rfl | hp
      · rw [e] at hlk; exact absurd hlk (by simp)
      · exact ih hi p hp hlk hq
    · simp only [e]
      split
      · rename_i h
        rcases List.mem_cons.mp hp with rfl | hp
        · exact kw_le_auxHi templates dl thr rest _
        · exact ih _ p hp hlk hq
      · rename_i h
        rcases List.mem_cons.mp hp with rfl | hp
        · have h2 : ¬ hi < keywordScore g dl := fun hlt => h ⟨hq, hlt⟩
          push_neg at h2
          exact le_trans h2 (kw_le_auxHi templates dl thr rest hi)
        · exact ih hi p hp hlk hq

theorem kwAux_first_max (templates : List (String × MemeTemplate)) (dl : String) (thr : Int) :
    ∀ (rules : List (String × KeywordGroups)) (best : Option MemeTemplate) (hi : Int)
      (t : MemeTemplate),
      kwAux templates dl thr rules best hi = some t →
      (best = some t ∧ kwAuxHi templates dl thr rules hi = hi) ∨
      (∃ tid g l₁ l₂, rules = l₁ ++ (tid, g) :: l₂ ∧
        templates.lookup tid = some t ∧
        hi < keywordScore g dl ∧ thr ≤ keywordScore g dl ∧
        keywordScore g dl = kwAuxHi templates dl thr rules hi ∧
        (∀ p ∈ l₁, (templates.lookup p.1).isSome → thr ≤ keywordScore p.2 dl →
          keywordScore p.2 dl < keywordScore g dl)) := by
  intro rules
  induction rules with
  | nil =>
    intro best hi t ht
    exact Or.inl ⟨ht, rfl⟩
  | cons q rest ih =>
    intro best hi t ht
    obtain ⟨tid, g⟩ := q
    unfold kwAux at ht
    unfold kwAuxHi
    rcases e : templates.lookup tid with _ | tmpl
    · rw [e] at ht
      simp only []
      rcases ih best hi t ht with ⟨h1, h2⟩ | ⟨tid', g', l₁, l₂, hsplit, hlk, hhi, hthr, heq, hall⟩
      · exact Or.inl ⟨h1, h2⟩
      · refine Or.inr ⟨tid', g', (tid, g) :: l₁, l₂, by rw [hsplit, List.cons_append],
          hlk, hhi, hthr, heq, ?_⟩
        intro p hp hlk2 hq2
        rcases List.mem_cons.mp hp with rfl | hp
        · rw [e] at hlk2; exact absurd hlk2 (by simp)
        · exact hall p hp hlk2 hq2
    · rw [e] at ht
      simp only [] at ht
      simp only []
      by_cases h : thr ≤ keywordScore g dl ∧ hi < keywordScore g dl
      · rw [if_pos h] at ht
        rw [if_pos h]
        rcases ih (some tmpl) (keywordScore g dl) t ht with
          ⟨h1, h2⟩ | ⟨tid', g', l₁, l₂, hsplit, hlk, hhi, hthr, heq, hall⟩
        · injection h1 with h1
          subst h1
          exact Or.inr ⟨tid, g, [], rest, rfl, e, h.2, h.1, h2.symm,
            by intro p hp; exact absurd hp (List.not_mem_nil p)⟩
        · refine Or.inr ⟨tid', g', (tid, g) :: l₁, l₂, by rw [hsplit, List.cons_append],
            hlk, lt_trans h.2 hhi, hthr, heq, ?_⟩
          intro p hp hlk2 hq2
          rcases List.mem_cons.mp hp with rfl | hp
          · exact hhi
          · exact hall p hp hlk2 hq2
      · rw [if_neg h] at ht
        rw [if_neg h]
        rcases ih best hi t ht with
          ⟨h1, h2⟩ | ⟨tid', g', l₁, l₂, hsplit, hlk, hhi, hthr, heq, hall⟩
        · exact Or.inl ⟨h1, h2⟩
        · refine Or.inr ⟨tid', g', (tid, g) :: l₁, l₂, by rw [hsplit, List.cons_append],
            hlk, hhi, hthr, heq, ?_⟩
          intro p hp hlk2 hq2
          rcases List.mem_cons.mp hp with rfl | hp
          · have : ¬ hi < keywordScore g dl := fun hlt => h ⟨hq2, hlt⟩
            push_neg at this
            exact lt_of_le_of_lt this hhi
          · exact hall p hp hlk2 hq2

theorem kwAux_none (templates : List (String × MemeTemplate)) (dl : String) (thr : Int) :
    ∀ (rules : List (String × KeywordGroups)) (best : Option MemeTemplate) (hi : Int),
      kwAux templates dl thr rules best hi = none →
      best = none ∧ ∀ p ∈ rules, (templates.lookup p.1).isSome →
        ¬(thr ≤ keywordScore p.2 dl ∧ hi < keywordScore p.2 dl) := by
  intro rules
  induction rules with
  | nil =>
    intro best hi h
    exact ⟨h, by intro p hp; exact absurd hp (List.not_mem_nil p)⟩
  | cons q rest ih =>
    intro best hi h
    obtain ⟨tid, g⟩ := q
    unfold kwAux at h
    rcases e : templates.lookup tid with _ | tmpl
    · rw [e] at h
      obtain ⟨h1, h2⟩ := ih best hi h
      refine ⟨h1, ?_⟩
      intro p hp hlk
      rcases List.mem_cons.mp hp with rfl | hp
      · rw [e] at hlk; exact absurd hlk (by simp)
      · exact h2 p hp hlk
    · rw [e] at h
      simp only [] at h
      by_cases hc : thr ≤ keywordScore g dl ∧ hi < keywordScore g dl
      · rw [if_pos hc] at h
        exact absurd (ih _ _ h).1 (by simp)
      · rw [if_neg hc] at h
        obtain ⟨h1, h2⟩ := ih best hi h
        refine ⟨h1, ?_⟩
        intro p hp hlk
        rcases List.mem_cons.mp hp with rfl | hp
        · exact hc
        · exact h2 p hp hlk

theorem kwAux_none_of (templates : List (String × MemeTemplate)) (dl : String) (thr : Int) :
    ∀ (rules : List (String × KeywordGroups)) (best : Option MemeTemplate) (hi : Int),
      (∀ p ∈ rules, (templates.lookup p.1).isSome →
        ¬(thr ≤ keywordScore p.2 dl ∧ hi < keywordScore p.2 dl)) →
      kwAux templates dl thr rules best hi = best := by
  intro rules
  induction rules with
  | nil => intro best hi _; rfl
  | cons q rest ih =>
    intro best hi h
    obtain ⟨tid, g⟩ := q
    unfold kwAux
    rcases e : templates.lookup tid with _ | tmpl
    · simp only [e]
      exact ih best hi (fun p hp => h p (List.mem_cons_of_mem (tid, g) hp))
    · simp only [e]
      rw [if_neg (h (tid, g) (List.mem_cons_self _ rest) (by rw [e]; simp))]
      exact ih best hi (fun p hp => h p (List.mem_cons_of_mem _ hp))

/-- Written to the spec's words for claim C5 (refinement comparison): the
same deterministic scoring, but iterating the catalog (`self.templates`) in
its insertion order and looking the rule set up per template id, so that a
tie between equal scores keeps the first-seen template in CATALOG order (the
spec names catalog iteration order as the tie-break authority; an absent
rule set contributes a score of 0). -/
def kwSpecAux (rules : List (String × KeywordGroups)) (dl : String) (thr : Int) :
    List (String × MemeTemplate) → Option (MemeTemplate × Int) → Option MemeTemplate
  | [], best => best.map Prod.fst
  | (tid, tmpl) :: rest, best =>
    let s : Int := match rules.lookup tid with
      | some g => keywordScore g dl
      | none => 0
    let better : Bool := match best with
      | none => decide (thr ≤ s)
      | some (_, bs) => decide (thr ≤ s ∧ bs < s)
    if better then kwSpecAux rules dl thr rest (some (tmpl, s))
    else kwSpecAux rules dl thr rest best

/-- Claim C5's selection rule as the spec words it (catalog iteration order
as tie-break authority). -/
def matchTemplatesByKeywordsSpec (templates : List (String × MemeTemplate))
    (rules : List (String × KeywordGroups)) (description : String)
    (threshold : Int) : Option MemeTemplate :=
  if description = "" then none
  else kwSpecAux rules (pyLower description) threshold templates none

def tmplAlpha : MemeTemplate :=
  { id := "alpha", name := "Alpha", description := "", use_cases := [],
    confidence_threshold := 1, text_slots := [] }

def tmplBeta : MemeTemplate :=
  { id := "beta", name := "Beta", description := "", use_cases := [],
    confidence_threshold := 1, text_slots := [] }

/-- Catalog insertion order: alpha first. -/
def catalogAB : List (String × MemeTemplate) := [("alpha", tmplAlpha), ("beta", tmplBeta)]

/-- Keyword-rule-file insertion order: beta first, same rule set for both. -/
def rulesBA : List (String × KeywordGroups) :=
  [("beta", { strong := ["win"], context := [], negative := [] }),
   ("alpha", { strong := ["win"], context := [], negative := [] })]

/-- Claim C5 is false as stated: on a tie (both templates score 3 on
description "win this", threshold 3) the code returns the first-seen entry
of the keyword rule file (`beta`), not the first-seen template in catalog
iteration order (`alpha`) which the claim requires. -/
theorem C5_keyword_matcher_counterexample :
    (matchTemplatesByKeywords catalogAB rulesBA "win this" 3).map MemeTemplate.id =
      some "beta" ∧
    (matchTemplatesByKeywordsSpec catalogAB rulesBA "win this" 3).map MemeTemplate.id =
      some "alpha" ∧
    keywordScore (rulesBA.get ⟨0, by decide⟩).2 (pyLower "win this") =
      keywordScore (rulesBA.get ⟨1, by decide⟩).2 (pyLower "win this") := by
  refine ⟨rfl, rfl, rfl⟩

/-- Claim C5 (amended): `match_templates_by_keywords` computes
`3×strong + context − 2×negative` per rule entry (case-insensitive substring
hits), returns no match on empty input, skips rule entries whose id is not in
the catalog, and selects the entry with the highest score that meets or
exceeds the threshold and exceeds −1 (the initial best), with first-seen
tie-break in KEYWORD-RULE-FILE iteration order (not catalog order). -/
theorem C5_keyword_matcher_amended (templates : List (String × MemeTemplate))
    (rules : List (String × KeywordGroups)) (description : String) (threshold : Int) :
    (description = "" →
      matchTemplatesByKeywords templates rules description threshold = none) ∧
    (∀ t, matchTemplatesByKeywords templates rules description threshold = some t →
      ∃ tid g l₁ l₂, rules = l₁ ++ (tid, g) :: l₂ ∧
        templates.lookup tid = some t ∧
        threshold ≤ keywordScore g (pyLower description) ∧
        -1 < keywordScore g (pyLower description) ∧
        (∀ p ∈ rules, (templates.lookup p.1).isSome →
          threshold ≤ keywordScore p.2 (pyLower description) →
          keywordScore p.2 (pyLower description) ≤ keywordScore g (pyLower description)) ∧
        (∀ p ∈ l₁, (templates.lookup p.1).isSome →
          threshold ≤ keywordScore p.2 (pyLower description) →
          keywordScore p.2 (pyLower description) < keywordScore g (pyLower description))) ∧
    (description ≠ "" →
      (matchTemplatesByKeywords templates rules description threshold = none ↔
        ∀ p ∈ rules, (templates.lookup p.1).isSome →
          ¬(threshold ≤ keywordScore p.2 (pyLower description) ∧
            -1 < keywordScore p.2 (pyLower description)))) := by
  refine ⟨?_, ?_, ?_⟩
  · intro h
    rw [matchTemplatesByKeywords, if_pos h]
  · intro t ht
    rw [matchTemplatesByKeywords] at ht
    split at ht
    · exact absurd ht (by simp)
    · rcases kwAux_first_max templates (pyLower description) threshold rules none (-1) t ht with
        ⟨h1, _⟩ | ⟨tid, g, l₁, l₂, hsplit, hlk, hhi, hthr, heq, hall⟩
      · exact absurd h1 (by simp)
      · refine ⟨tid, g, l₁, l₂, hsplit, hlk, hthr, hhi, ?_, hall⟩
        intro p hp hlk2 hq2
        rw [heq]
        exact kw_qual_le_auxHi templates (pyLower description) threshold rules (-1) p hp hlk2 hq2
  · intro hne
    rw [matchTemplatesByKeywords, if_neg hne]
    constructor
    · intro hnone
      exact (kwAux_none templates (pyLower description) threshold rules none (-1) hnone).2
    · intro h
      exact kwAux_none_of templates (pyLower description) threshold rules none (-1) h

/-- Claim C5 witness: the amended theorem applied at a concrete matching
input; the returned template is the keyword-file-first entry and its score
is maximal among qualifying entries. -/
theorem C5_keyword_matcher_witness :
    ∃ tid g l₁ l₂, rulesBA = l₁ ++ (tid, g) :: l₂ ∧
      catalogAB.lookup tid = some tmplBeta ∧
      3 ≤ keywordScore g (pyLower "win this") ∧
      -1 < keywordScore g (pyLower "win this") ∧
      (∀ p ∈ rulesBA, (catalogAB.lookup p.1).isSome →
        3 ≤ keywordScore p.2 (pyLower "win this") →
        keywordScore p.2 (pyLower "win this") ≤ keywordScore g (pyLower "win this")) ∧
      (∀ p ∈ l₁, (catalogAB.lookup p.1).isSome →
        3 ≤ keywordScore p.2 (pyLower "win this") →
        keywordScore p.2 (pyLower "win this") < keywordScore g (pyLower "win this")) :=
  (C5_keyword_matcher_amended catalogAB rulesBA "win this" 3).2.1 tmplBeta rfl

/-! ## `TemplateService.fill_template_slots` (templates.py lines 217-307)

Priority 1: if `concept.template_slots` is truthy and its keys cover every
required slot key, the LLM-provided values are returned directly (unstripped,
unsanitized, with no `max_chars` enforcement — lines 224-229).
Priority 2: a per-template-id heuristic ladder builds `slot_values`
(lines 234-293); `distracted_boyfriend` with fewer than 3 keywords indexes
`template.text_slots[2]` unguarded, which raises `IndexError` when the
template declares fewer than 3 slots (line 245).
Finally each required slot's value is stripped; an empty value raises
`ValueError("Could not fill slot <key>")`, otherwise the value is sanitized
with the slot's `max_chars` (lines 296-307). -/

/-- The per-template heuristic ladder (the `if template.id == ...` chain). -/
def expandingLevel (c : MemeConcept) (i : Nat) : String :=
  if i ≤ c.keywords.length then c.keywords.getD (i - 1) ""
  else if i = 4 then c.caption else "Level " ++ toString i

def heuristicSlots (template : MemeTemplate) (c : MemeConcept) :
    Except String (List (String × String)) :=
  if template.id = "distracted_boyfriend" then
    if 3 ≤ c.keywords.length then
      .ok [("subject", c.keywords.getD 0 ""), ("old_option", c.keywords.getD 1 ""),
           ("new_option", c.keywords.getD 2 "")]
    else
      match template.text_slots.get? 2 with
      | none => .error "IndexError: list index out of range"
      | some slot2 =>
        .ok [("subject", (c.keywords.get? 0).getD "Me"),
             ("old_option", (c.keywords.get? 1).getD "Existing choice"),
             ("new_option", pySliceToI c.caption slot2.max_chars)]
  else if template.id = "drake_hotline" then
    if 2 ≤ c.keywords.length then
      .ok [("nope", c.keywords.getD 0 ""), ("yep", c.keywords.getD 1 "")]
    else
      .ok [("nope", "Boring stuff"), ("yep", c.caption)]
  else if template.id = "two_buttons" then
    if 2 ≤ c.keywords.length then
      .ok [("option_1", c.keywords.getD 0 ""), ("option_2", c.keywords.getD 1 "")]
    else
      .ok [("option_1", "Choice A"), ("option_2", c.caption)]
  else if template.id = "expanding_brain" then
    .ok [("level_1", expandingLevel c 1), ("level_2", expandingLevel c 2),
         ("level_3", expandingLevel c 3), ("level_4", expandingLevel c 4)]
  else if template.id = "change_my_mind" then
    .ok [("statement", c.caption)]
  else if template.id = "monkey_puppet" then
    .ok [("reaction", c.caption)]
  else if template.id = "hands_up_opinion" then
    .ok [("opinion", c.caption)]
  else if template.id = "woman_yelling_cat" then
    if 2 ≤ c.keywords.length then
      .ok [("yelling_woman", c.keywords.getD 0 ""), ("confused_cat", c.keywords.getD 1 "")]
    else
      .ok [("yelling_woman", "Competitors"), ("confused_cat", c.caption)]
  else
    .ok []

/-- The final check and char-limit enforcement loop (lines 296-307). -/
def finalizeSlots : List TextSlot → List (String × String) →
    Except String (List (String × String))
  | [], _ => .ok []
  | slot :: rest, sv =>
    let val := pyStrip ((sv.lookup slot.key).getD "")
    if val = "" then .error ("Could not fill slot " ++ slot.key)
    else
      match finalizeSlots rest sv with
      | .error e => .error e
      | .ok fin => .ok ((slot.key, sanitizeText val slot.max_chars) :: fin)

/-- `TemplateService.fill_template_slots(template, concept)`.  The
LLM-provided path iterates the `required_keys` set; since the returned dict
is only ever read by key, it is modelled keyed in slot order. -/
def fillTemplateSlots (template : MemeTemplate) (c : MemeConcept) :
    Except String (List (String × String)) :=
  if c.template_slots ≠ [] ∧
     template.text_slots.all (fun slot => (c.template_slots.lookup slot.key).isSome) then
    .ok (template.text_slots.map
      (fun slot => (slot.key, (c.template_slots.lookup slot.key).getD "")))
  else
    match heuristicSlots template c with
    | .error e => .error e
    | .ok sv => finalizeSlots template.text_slots sv

def tmplChangeMyMind : MemeTemplate :=
  { id := "change_my_mind", name := "Change My Mind", description := "",
    use_cases := [], confidence_threshold := 1,
    text_slots := [{ key := "statement", max_chars := 100 }] }

def tmplStatement5 : MemeTemplate :=
  { tmplChangeMyMind with text_slots := [{ key := "statement", max_chars := 5 }] }

def tmplStatement1 : MemeTemplate :=
  { tmplChangeMyMind with text_slots := [{ key := "statement", max_chars := 1 }] }

def tmplStatement10 : MemeTemplate :=
  { tmplChangeMyMind with text_slots := [{ key := "statement", max_chars := 10 }] }

def conceptLLMslots : MemeConcept :=
  { caption := "", keywords := [], use_cases := [], intent := "",
    template_slots := [("statement", "0123456789")] }

def conceptXY : MemeConcept :=
  { caption := "xy", keywords := [], use_cases := [], intent := "",
    template_slots := [] }

/-- Claim C1 is false as stated: (a) a concept-supplied `template_slots`
value is returned verbatim, exceeding the slot's `max_chars = 5`; and
(b) even on the heuristic path, a slot with `max_chars = 1` receives the
3-character value `"..."` because the truncation always appends an
ellipsis. -/
theorem C1_fill_max_chars_counterexample :
    fillTemplateSlots tmplStatement5 conceptLLMslots = .ok [("statement", "0123456789")] ∧
    5 < ("0123456789" : String).length ∧
    fillTemplateSlots tmplStatement1 conceptXY = .ok [("statement", "...")] ∧
    1 < ("..." : String).length := by
  refine ⟨rfl, by decide, rfl, by decide⟩

theorem finalizeSlots_ok_mem :
    ∀ (slots : List TextSlot) (sv m : List (String × String)),
      finalizeSlots slots sv = .ok m →
      ∀ p ∈ m, ∃ slot ∈ slots, slot.key = p.1 ∧
        p.2 = sanitizeText (pyStrip ((sv.lookup slot.key).getD "")) slot.max_chars := by
  intro slots
  induction slots with
  | nil =>
    intro sv m h p hp
    injection h with h
    subst h
    exact absurd hp (List.not_mem_nil p)
  | cons slot rest ih =>
    intro sv m h p hp
    unfold finalizeSlots at h
    split at h
    · -- recursive call returned an error
      simp only [] at h
      split at h <;> simp at h
    · rename_i fin heq
      simp only [] at h
      split at h
      · simp at h
      · injection h with h
        subst h
        rcases List.mem_cons.mp hp with rfl | hp
        · exact ⟨slot, List.mem_cons_self slot rest, rfl, rfl⟩
        · obtain ⟨slot', hmem, hkey, hval⟩ := ih sv fin heq p hp
          exact ⟨slot', List.mem_cons_of_mem slot hmem, hkey, hval⟩

/-- Claim C1 (amended): when the concept does not supply a covering
`template_slots` mapping (so the heuristic + sanitization path runs) and
every slot declares `max_chars ≥ 3`, every value in the returned mapping has
length at most its slot's `max_chars`.  The concept-supplied path returns
values verbatim, and budgets below 3 can be exceeded by the appended
ellipsis. -/
theorem C1_fill_max_chars_amended (template : MemeTemplate) (c : MemeConcept)
    (hpath : ¬(c.template_slots ≠ [] ∧
      template.text_slots.all (fun slot => (c.template_slots.lookup slot.key).isSome)))
    (hm : ∀ slot ∈ template.text_slots, 3 ≤ slot.max_chars)
    (m : List (String × String))
    (hok : fillTemplateSlots template c = .ok m) :
    ∀ p ∈ m, ∃ slot ∈ template.text_slots, slot.key = p.1 ∧
      ((p.2.length : Int)) ≤ slot.max_chars := by
  rw [fillTemplateSlots, if_neg hpath] at hok
  rcases e : heuristicSlots template c with e' | sv
  · rw [e] at hok; exact absurd hok (by simp)
  · rw [e] at hok
    intro p hp
    obtain ⟨slot, hmem, hkey, hval⟩ := finalizeSlots_ok_mem template.text_slots sv m hok p hp
    refine ⟨slot, hmem, hkey, ?_⟩
    rw [hval]
    exact sanitize_length_le _ _ (hm slot hmem)

/-- Claim C1 witness: a concrete heuristic-path fill whose single produced
value respects its slot's budget. -/
theorem C1_fill_max_chars_witness :
    ∃ slot ∈ tmplStatement10.text_slots, slot.key = ("statement", "Xy").1 ∧
      ((("statement", "Xy").2.length : Int)) ≤ slot.max_chars :=
  C1_fill_max_chars_amended tmplStatement10 conceptXY (by decide) (by decide)
    [("statement", "Xy")] rfl ("statement", "Xy") (by decide)

theorem heuristicSlots_error {template : MemeTemplate} {c : MemeConcept} {e : String}
    (he : heuristicSlots template c = .error e) :
    template.id = "distracted_boyfriend" ∧ template.text_slots.length < 3 ∧
    c.keywords.length < 3 ∧ e = "IndexError: list index out of range" := by
  unfold heuristicSlots at he
  split_ifs at he with h1 h2 h3 h4 h5 h6 h7 h8 h9 h10 h11 h12
  rcases e2 : template.text_slots.get? 2 with _ | slot2
  · rw [e2] at he
    simp only [] at he
    have hlen := List.get?_eq_none.mp e2
    refine ⟨h1, by omega, by omega, ?_⟩
    injection he with he
    exact he.symm
  · rw [e2] at he
    simp only [] at he
    exact absurd he (by simp)

theorem finalizeSlots_cons (slot : TextSlot) (rest : List TextSlot)
    (sv : List (String × String)) :
    finalizeSlots (slot :: rest) sv =
      (if pyStrip ((sv.lookup slot.key).getD "") = "" then
        .error ("Could not fill slot " ++ slot.key)
      else
        match finalizeSlots rest sv with
        | .error e => .error e
        | .ok fin =>
          .ok ((slot.key,
            sanitizeText (pyStrip ((sv.lookup slot.key).getD "")) slot.max_chars) :: fin)) :=
  rfl

theorem finalizeSlots_keys :
    ∀ (slots : List TextSlot) (sv : List (String × String)),
      (∃ m, finalizeSlots slots sv = .ok m ∧
        m.map Prod.fst = slots.map TextSlot.key) ∨
      (∃ k, k ∈ slots.map TextSlot.key ∧
        finalizeSlots slots sv = .error ("Could not fill slot " ++ k)) := by
  intro slots
  induction slots with
  | nil => intro sv; exact Or.inl ⟨[], rfl, rfl⟩
  | cons slot rest ih =>
    intro sv
    by_cases hval : pyStrip ((sv.lookup slot.key).getD "") = ""
    · refine Or.inr ⟨slot.key, by simp, ?_⟩
      rw [finalizeSlots_cons, if_pos hval]
    · rcases ih sv with ⟨m, hok, hkeys⟩ | ⟨k, hkmem, herr⟩
      · refine Or.inl ⟨(slot.key,
          sanitizeText (pyStrip ((sv.lookup slot.key).getD "")) slot.max_chars) :: m, ?_, ?_⟩
        · rw [finalizeSlots_cons, if_neg hval]
          simp only [hok]
        · simp [hkeys]
      · refine Or.inr ⟨k, by simp only [List.map_cons, List.mem_cons]; exact Or.inr hkmem, ?_⟩
        rw [finalizeSlots_cons, if_neg hval]
        simp only [herr]

/-- Claim C2 (amended): `fill_template_slots` either returns a mapping whose
keys are exactly the template's required slot keys (in slot order), or fails
with the typed "Could not fill slot <key>" error naming a required slot, or
— only for a malformed `distracted_boyfriend` template declaring fewer than
3 slots — fails with an index error.  Values are NOT guaranteed non-empty:
concept-supplied `template_slots` values are returned verbatim (and
sanitization may itself empty a value after the non-empty check). -/
theorem C2_fill_required_keys_amended (template : MemeTemplate) (c : MemeConcept) :
    (∃ m, fillTemplateSlots template c = .ok m ∧
      m.map Prod.fst = template.text_slots.map TextSlot.key) ∨
    (∃ k, k ∈ template.text_slots.map TextSlot.key ∧
      fillTemplateSlots template c = .error ("Could not fill slot " ++ k)) ∨
    (template.id = "distracted_boyfriend" ∧ template.text_slots.length < 3 ∧
      fillTemplateSlots template c = .error "IndexError: list index out of range") := by
  by_cases hc : c.template_slots ≠ [] ∧
      template.text_slots.all (fun slot => (c.template_slots.lookup slot.key).isSome)
  · refine Or.inl ⟨_, by rw [fillTemplateSlots, if_pos hc], ?_⟩
    rw [List.map_map]
    rfl
  · rcases e : heuristicSlots template c with err | sv
    · obtain ⟨hid, hlen, _, herr⟩ := heuristicSlots_error e
      refine Or.inr (Or.inr ⟨hid, hlen, ?_⟩)
      rw [fillTemplateSlots, if_neg hc]
      simp only [e, herr]
    · rcases finalizeSlots_keys template.text_slots sv with ⟨m, hok, hkeys⟩ | ⟨k, hkmem, herr⟩
      · refine Or.inl ⟨m, ?_, hkeys⟩
        rw [fillTemplateSlots, if_neg hc]
        simp only [e]
        exact hok
      · refine Or.inr (Or.inl ⟨k, hkmem, ?_⟩)
        rw [fillTemplateSlots, if_neg hc]
        simp only [e]
        exact herr

def conceptEmptySlotVal : MemeConcept :=
  { caption := "cap", keywords := [], use_cases := [], intent := "",
    template_slots := [("statement", "")] }

/-- Claim C2 is false as stated: when the concept supplies its own
`template_slots` covering the required keys, the values are returned without
the emptiness check, so a required slot can come back empty. -/
theorem C2_fill_empty_value_counterexample :
    fillTemplateSlots tmplChangeMyMind conceptEmptySlotVal = .ok [("statement", "")] ∧
    "statement" ∈ tmplChangeMyMind.text_slots.map TextSlot.key := by
  refine ⟨rfl, by decide⟩

/-! ## `StableDiffusionService._wrap_text_to_fit` (stable_diffusion.py lines 310-339)

```python
def _wrap_text_to_fit(self, text: str, max_width: int, font: Any) -> list[str]:
    words = text.split()
    if not words:
        return []
    lines: list[str] = []
    current = ""
    def measure(s: str) -> int: ...   # font.getbbox width, with a fallback
    for word in words:
        candidate = f"{current} {word}".strip() if current else word
        if measure(candidate) <= max_width:
            current = candidate
        else:
            if current:
                lines.append(current)
            current = word
            while measure(current) > max_width and len(current) > 1:
                lines.append(current[: len(current) // 2])
                current = current[len(current) // 2 :]
    if current:
        lines.append(current)
    return lines
```

The font only ever feeds `measure`, so the embedding takes `measure` as a
function parameter.  Since `current` and `word` never carry outer
whitespace, `f"{current} {word}".strip()` is `current ++ " " ++ word`.
The `while` loop halves `current` each pass, so it runs fewer than
`len(word)` times; it is embedded with that much structural fuel. -/

/-- The inner hard-split `while` loop.  Each iteration with
`len(current) ≥ 2` strictly shrinks `current`, so fuel `cur.length` is never
exhausted; the properties proved below hold for every fuel. -/
def hardSplit (measure : String → Int) (maxWidth : Int) :
    Nat → List Char → List (List Char) × List Char
  | 0, cur => ([], cur)
  | fuel + 1, cur =>
    if maxWidth < measure (String.mk cur) ∧ 1 < cur.length then
      let half := cur.length / 2
      let res := hardSplit measure maxWidth fuel (cur.drop half)
      (cur.take half :: res.1, res.2)
    else ([], cur)

/-- The `for word in words` loop of `_wrap_text_to_fit`. -/
def wrapLoop (measure : String → Int) (maxWidth : Int) :
    List String → List String → String → List String
  | [], lines, current => if current ≠ "" then lines ++ [current] else lines
  | w :: rest, lines, current =>
    let candidate := if current = "" then w else current ++ " " ++ w
    if measure candidate ≤ maxWidth then
      wrapLoop measure maxWidth rest lines candidate
    else
      let lines1 := if current ≠ "" then lines ++ [current] else lines
      let res := hardSplit measure maxWidth w.data.length w.data
      wrapLoop measure maxWidth rest (lines1 ++ res.1.map String.mk) (String.mk res.2)

/-- `_wrap_text_to_fit(text, max_width, font)`. -/
def wrapTextToFit (measure : String → Int) (maxWidth : Int) (text : String) :
    List String :=
  if pySplit text = [] then []
  else wrapLoop measure maxWidth (pySplit text) [] ""

example : wrapTextToFit (fun s => (s.length : Int)) 7 "a bb cc dd" = ["a bb cc", "dd"] := by
  decide

/-- Claim C6 (counterexample): with width 25 and a measure of 10 per
character, the single word "abcdefgh" is hard-split into halves that are
appended without being re-measured: the emitted line "abcd" measures 40,
exceeding the maximum width. -/
theorem C6_wrap_text_counterexample :
    wrapTextToFit (fun s => 10 * (s.length : Int)) 25 "abcdefgh" = ["abcd", "ef", "gh"] ∧
    ¬ ((fun s : String => 10 * (s.length : Int)) "abcd" ≤ 25) := by
  refine ⟨rfl, by decide⟩

theorem hardSplit_join (measure : String → Int) (maxWidth : Int) :
    ∀ (fuel : Nat) (cur : List Char),
      ((hardSplit measure maxWidth fuel cur).1).flatten ++
        (hardSplit measure maxWidth fuel cur).2 = cur := by
  intro fuel
  induction fuel with
  | zero => intro cur; simp [hardSplit]
  | succ fuel ih =>
    intro cur
    unfold hardSplit
    split
    · simp only [List.flatten_cons, List.append_assoc, ih (cur.drop (cur.length / 2))]
      exact List.take_append_drop _ cur
    · simp

theorem hardSplit_frag_mem (measure : String → Int) (maxWidth : Int)
    {fuel : Nat} {cur frag : List Char} {ch : Char}
    (hfrag : frag ∈ (hardSplit measure maxWidth fuel cur).1) (hch : ch ∈ frag) :
    ch ∈ cur := by
  have hj := hardSplit_join measure maxWidth fuel cur
  rw [← hj]
  exact List.mem_append_left _ (List.mem_flatten.mpr ⟨frag, hfrag, hch⟩)

theorem hardSplit_rest_mem (measure : String → Int) (maxWidth : Int)
    {fuel : Nat} {cur : List Char} {ch : Char}
    (hch : ch ∈ (hardSplit measure maxWidth fuel cur).2) :
    ch ∈ cur := by
  have hj := hardSplit_join measure maxWidth fuel cur
  rw [← hj]
  exact List.mem_append_right _ hch

theorem pySplitAux_no_ws :
    ∀ (l acc : List Char), (∀ ch ∈ acc, pyWs ch = false) →
      ∀ w ∈ pySplitAux l acc, ∀ ch ∈ w.data, pyWs ch = false := by
  intro l
  induction l with
  | nil =>
    intro acc hacc w hw ch hch
    unfold pySplitAux at hw
    split at hw
    · exact absurd hw (List.not_mem_nil w)
    · rcases List.mem_cons.mp hw with rfl | hw
      · exact hacc ch (List.mem_reverse.mp hch)
      · exact absurd hw (List.not_mem_nil w)
  | cons c rest ih =>
    intro acc hacc w hw ch hch
    unfold pySplitAux at hw
    split at hw
    · split at hw
      · exact ih [] (by intro ch2 h2; exact absurd h2 (List.not_mem_nil ch2)) w hw ch hch
      · rcases List.mem_cons.mp hw with rfl | hw
        · exact hacc ch (List.mem_reverse.mp hch)
        · exact ih [] (by intro ch2 h2; exact absurd h2 (List.not_mem_nil ch2)) w hw ch hch
    · rename_i hc
      refine ih (c :: acc) ?_ w hw ch hch
      intro ch2 h2
      rcases List.mem_cons.mp h2 with rfl | h2
      · exact Bool.not_eq_true _ ▸ (by simpa using hc)
      · exact hacc ch2 h2

/-- All characters of all strings in a list, in order. -/
def charsOf (ls : List String) : List Char :=
  (ls.map String.data).flatten

/-- Remove the single-space separators the wrapper inserts between words. -/
def dropSpaces (l : List Char) : List Char :=
  l.filter (fun ch => ch ≠ ' ')

theorem charsOf_append (a b : List String) :
    charsOf (a ++ b) = charsOf a ++ charsOf b := by
  simp [charsOf]

theorem dropSpaces_append (a b : List Char) :
    dropSpaces (a ++ b) = dropSpaces a ++ dropSpaces b := by
  simp [dropSpaces]

theorem dropSpaces_eq_self {l : List Char} (h : ' ' ∉ l) : dropSpaces l = l := by
  rw [dropSpaces, List.filter_eq_self]
  intro a ha
  simp only [ne_eq, decide_eq_true_eq]
  exact fun he => h (he ▸ ha)

theorem wrapLoop_fit (measure : String → Int) (maxWidth : Int) :
    ∀ (words lines : List String) (current : String),
      (∀ w ∈ words, ' ' ∉ w.data) →
      (∀ line ∈ lines, measure line ≤ maxWidth ∨ ' ' ∉ line.data) →
      (current = "" ∨ measure current ≤ maxWidth ∨ ' ' ∉ current.data) →
      ∀ line ∈ wrapLoop measure maxWidth words lines current,
        measure line ≤ maxWidth ∨ ' ' ∉ line.data := by
  intro words
  induction words with
  | nil =>
    intro lines current _ hlines hcur line hline
    unfold wrapLoop at hline
    split at hline
    · rename_i hne
      rcases List.mem_append.mp hline with h | h
      · exact hlines line h
      · have : line = current := by simpa using h
        subst this
        rcases hcur with h0 | h0
        · exact absurd h0 hne
        · exact h0
    · exact hlines line hline
  | cons w rest ih =>
    intro lines current hwords hlines hcur line hline
    have hwsp : ' ' ∉ w.data := hwords w (List.mem_cons_self w rest)
    have hwrest : ∀ v ∈ rest, ' ' ∉ v.data :=
      fun v hv => hwords v (List.mem_cons_of_mem w hv)
    unfold wrapLoop at hline
    simp only [] at hline
    by_cases hfit : measure (if current = "" then w else current ++ " " ++ w) ≤ maxWidth
    · rw [if_pos hfit] at hline
      exact ih lines _ hwrest hlines (Or.inr (Or.inl hfit)) line hline
    · rw [if_neg hfit] at hline
      refine ih _ _ hwrest ?_ ?_ line hline
      · intro l2 hl2
        rcases List.mem_append.mp hl2 with h | h
        · split at h
          · rename_i hne
            rcases List.mem_append.mp h with h2 | h2
            · exact hlines l2 h2
            · have : l2 = current := by simpa using h2
              subst this
              rcases hcur with h0 | h0
              · exact absurd h0 hne
              · exact h0
          · exact hlines l2 h
        · obtain ⟨frag, hfrag, hmk⟩ := List.mem_map.mp h
          right
          intro hsp
          have hm : (' ' : Char) ∈ frag := by
            rw [← hmk] at hsp
            simpa using hsp
          exact hwsp (hardSplit_frag_mem measure maxWidth hfrag hm)
      · right
        right
        intro hsp
        exact hwsp (hardSplit_rest_mem measure maxWidth (by simpa using hsp))

theorem wrapLoop_chars (measure : String → Int) (maxWidth : Int) :
    ∀ (words lines : List String) (current : String),
      (∀ w ∈ words, ' ' ∉ w.data) →
      dropSpaces (charsOf (wrapLoop measure maxWidth words lines current)) =
        dropSpaces (charsOf lines) ++ dropSpaces current.data ++ charsOf words := by
  intro words
  induction words with
  | nil =>
    intro lines current _
    unfold wrapLoop
    split
    · rw [charsOf_append, dropSpaces_append]
      simp [charsOf]
    · rename_i hne
      push_neg at hne
      subst hne
      simp [charsOf, dropSpaces]
  | cons w rest ih =>
    intro lines current hwords
    have hwsp : ' ' ∉ w.data := hwords w (List.mem_cons_self w rest)
    have hwrest : ∀ v ∈ rest, ' ' ∉ v.data :=
      fun v hv => hwords v (List.mem_cons_of_mem w hv)
    unfold wrapLoop
    simp only []
    by_cases hfit : measure (if current = "" then w else current ++ " " ++ w) ≤ maxWidth
    · rw [if_pos hfit, ih _ _ hwrest]
      by_cases hc : current = ""
      · subst hc
        have hcand : (if ("" : String) = "" then w else "" ++ " " ++ w) = w := if_pos rfl
        rw [hcand, dropSpaces_eq_self hwsp]
        simp [charsOf, dropSpaces, List.append_assoc]
      · rw [if_neg hc, string_data_append, string_data_append,
          dropSpaces_append, dropSpaces_append]
        have hone : dropSpaces (" " : String).data = [] := by decide
        rw [hone, dropSpaces_eq_self hwsp]
        simp [charsOf, List.append_assoc]
    · rw [if_neg hfit, ih _ _ hwrest]
      have hj := hardSplit_join measure maxWidth w.data.length w.data
      have hfrag : charsOf ((hardSplit measure maxWidth w.data.length w.data).1.map String.mk) =
          (hardSplit measure maxWidth w.data.length w.data).1.flatten := by
        unfold charsOf
        rw [List.map_map,
          show (String.data ∘ String.mk) = (id : List Char → List Char) from rfl, List.map_id]
      have hrest2 : (String.mk (hardSplit measure maxWidth w.data.length w.data).2).data =
          (hardSplit measure maxWidth w.data.length w.data).2 := rfl
      rw [charsOf_append, dropSpaces_append, hfrag, hrest2]
      have hsplitw : dropSpaces (hardSplit measure maxWidth w.data.length w.data).1.flatten ++
          dropSpaces (hardSplit measure maxWidth w.data.length w.data).2 = w.data := by
        rw [← dropSpaces_append, hj]
        exact dropSpaces_eq_self hwsp
      have hlines1 : dropSpaces (charsOf (if current ≠ "" then lines ++ [current] else lines)) =
          dropSpaces (charsOf lines) ++ dropSpaces current.data := by
        split
        · rw [charsOf_append, dropSpaces_append]
          simp [charsOf]
        · rename_i hne
          push_neg at hne
          subst hne
          simp [charsOf, dropSpaces]
      rw [hlines1]
      calc dropSpaces (charsOf lines) ++ dropSpaces current.data ++
            dropSpaces (hardSplit measure maxWidth w.data.length w.data).1.flatten ++
            dropSpaces (hardSplit measure maxWidth w.data.length w.data).2 ++ charsOf rest
          = dropSpaces (charsOf lines) ++ dropSpaces current.data ++
            (dropSpaces (hardSplit measure maxWidth w.data.length w.data).1.flatten ++
             dropSpaces (hardSplit measure maxWidth w.data.length w.data).2) ++ charsOf rest := by
            simp [List.append_assoc]
        _ = dropSpaces (charsOf lines) ++ dropSpaces current.data ++ w.data ++ charsOf rest := by
            rw [hsplitw]
        _ = dropSpaces (charsOf lines) ++ dropSpaces current.data ++ (w.data ++ charsOf rest) := by
            simp [List.append_assoc]
        _ = dropSpaces (charsOf lines) ++ dropSpaces current.data ++ charsOf (w :: rest) := by
            simp [charsOf]

/-- Claim C6 (amended): for every caption, width limit and measuring
function, each line produced by `_wrap_text_to_fit` either fits within the
limit or is a space-free fragment of a single word produced by the
hard-split path (whose emitted halves are not re-measured and can exceed
the limit); and no character is ever dropped: removing the inserted
single-space separators, the concatenation of all produced lines равно the
concatenation of the caption's words in order. -/
theorem C6_wrap_text_amended (measure : String → Int) (maxWidth : Int) (text : String) :
    (∀ line ∈ wrapTextToFit measure maxWidth text,
      measure line ≤ maxWidth ∨ ' ' ∉ line.data) ∧
    dropSpaces (charsOf (wrapTextToFit measure maxWidth text)) = charsOf (pySplit text) := by
  have hwords : ∀ w ∈ pySplit text, ' ' ∉ w.data := by
    intro w hw hsp
    have := pySplitAux_no_ws text.data [] (by intro ch h; exact absurd h (List.not_mem_nil ch))
      w hw ' ' hsp
    exact absurd this (by decide)
  by_cases hempty : pySplit text = []
  · rw [wrapTextToFit, if_pos hempty, hempty]
    exact ⟨by intro line h; exact absurd h (List.not_mem_nil line), by simp [charsOf, dropSpaces]⟩
  · rw [wrapTextToFit, if_neg hempty]
    constructor
    · exact wrapLoop_fit measure maxWidth (pySplit text) [] "" hwords
        (by intro l h; exact absurd h (List.not_mem_nil l)) (Or.inl rfl)
    · rw [wrapLoop_chars measure maxWidth (pySplit text) [] "" hwords]
      simp [charsOf, dropSpaces]

/-- Claim C6 witness: the amended theorem applied to a concrete caption
whose single produced line fits. -/
theorem C6_wrap_text_witness :
    (fun s : String => (s.length : Int)) "hi there" ≤ 100 ∨
      ' ' ∉ ("hi there" : String).data :=
  (C6_wrap_text_amended (fun s => (s.length : Int)) 100 "hi there").1 "hi there" (by decide)

/-! ## `LlamaService._extract_json_from_response` (llama.py lines 240-299)

```python
if not response_text:
    raise LlamaResponseError("Empty response from LLaMA")
text = response_text.strip()
text = re.sub(r'```json\s*(.*?)\s*```', r'\1', text, flags=re.DOTALL)
text = re.sub(r'```\s*(.*?)\s*```', r'\1', text, flags=re.DOTALL)
text = text.strip()
try:
    return json.loads(text)
except json.JSONDecodeError:
    pass
match = re.search(r'({.*})', text, re.DOTALL)
if match:
    try:
        content = match.group(1)
        if content.count('{') > content.count('}'):
            content += '}' * (content.count('{') - content.count('}'))
        return json.loads(content)
    except json.JSONDecodeError:
        logger.warning(...)
if text.startswith('{') and not text.endswith('}'):
    for i in range(1, 5):
        try:
            return json.loads(text + '}' * i)
        except json.JSONDecodeError:
            continue
raise LlamaResponseError("Could not extract valid JSON ...")
```

`json.loads` is modelled by a recursive-descent parser over a JSON value
type (objects, arrays, strings with the common escapes, integers, booleans,
null; floats and `\b`/`\f`/`\uXXXX` escapes are rejected — no claim
exercises them), rejecting trailing data as Python does.  `json.dumps` is
modelled with its default separators `", "` and `": "`. -/

inductive PyJson where
  | str (s : String)
  | num (n : Int)
  | bool (b : Bool)
  | null
  | arr (xs : List PyJson)
  | obj (fields : List (String × PyJson))

/-- JSON whitespace skipping (space, tab, newline, carriage return — the
same class as `pyWs`). -/
def skipWs (cs : List Char) : List Char :=
  cs.dropWhile pyWs

/-- JSON string body parser (after the opening quote); `esc` is set after a
backslash.  `acc` holds the parsed characters reversed. -/
def parseJString : List Char → List Char → Bool → Option (String × List Char)
  | [], _, _ => none
  | c :: rest, acc, true =>
    if c = '"' then parseJString rest ('"' :: acc) false
    else if c = '\\' then parseJString rest ('\\' :: acc) false
    else if c = '/' then parseJString rest ('/' :: acc) false
    else if c = 'n' then parseJString rest ('\n' :: acc) false
    else if c = 't' then parseJString rest ('\t' :: acc) false
    else if c = 'r' then parseJString rest ('\r' :: acc) false
    else none
  | c :: rest, acc, false =>
    if c = '"' then some (String.mk acc.reverse, rest)
    else if c = '\\' then parseJString rest acc true
    else if c.toNat < 32 then none
    else parseJString rest (c :: acc) false

/-- Digit-run accumulator for number parsing. -/
def parseDigits : List Char → Nat → Nat × List Char
  | [], acc => (acc, [])
  | c :: rest, acc =>
    if c.isDigit then parseDigits rest (acc * 10 + (c.toNat - 48))
    else (acc, c :: rest)

/-- Integer parser (sign + digit run; a following `.`/`e`/`E` would be a
float, which this model rejects). -/
def parseJNumber (cs : List Char) : Option (PyJson × List Char) :=
  let core : List Char → Option (Nat × List Char) := fun l =>
    match l with
    | c :: rest => if c.isDigit then some (parseDigits rest (c.toNat - 48)) else none
    | [] => none
  let noFloat : List Char → Bool := fun l =>
    match l with
    | c :: _ => !(c = '.' || c = 'e' || c = 'E')
    | [] => true
  match cs with
  | '-' :: rest =>
    match core rest with
    | some (n, r) => if noFloat r then some (.num (-(n : Int)), r) else none
    | none => none
  | _ =>
    match core cs with
    | some (n, r) => if noFloat r then some (.num (n : Int), r) else none
    | none => none

/-- Continuation after one object member `k: v` has been parsed: a closing
brace ends the object, a comma re-enters the parser `pj` on a synthetic
opening brace (guarding against a trailing comma), anything else fails. -/
def objStep (pj : List Char → Option (PyJson × List Char)) (k : String)
    (v : PyJson) (r5 : List Char) : Option (PyJson × List Char) :=
  match skipWs r5 with
  | '\x7d' :: r7 => some (.obj [(k, v)], r7)
  | ',' :: r7 =>
    match skipWs r7 with
    | '\x7d' :: _ => none
    | r8 =>
      match pj ('\x7b' :: r8) with
      | some (.obj fs, r9) => some (.obj ((k, v) :: fs), r9)
      | _ => none
  | _ => none

/-- Object parsing after the opening `{`, parameterized by the parser `pj`
used for member values and for the re-entry on the remaining members. -/
def parseObjRest (pj : List Char → Option (PyJson × List Char)) (cs : List Char) :
    Option (PyJson × List Char) :=
  match skipWs cs with
  | '\x7d' :: r2 => some (.obj [], r2)
  | '"' :: r1 =>
    match parseJString r1 [] false with
    | none => none
    | some (k, r2) =>
      match skipWs r2 with
      | ':' :: r4 =>
        match pj (skipWs r4) with
        | none => none
        | some (v, r5) => objStep pj k v r5
      | _ => none
  | _ => none

/-- Array parsing after the opening `[`, parameterized like `parseObjRest`. -/
def parseArrRest (pj : List Char → Option (PyJson × List Char)) (cs : List Char) :
    Option (PyJson × List Char) :=
  match skipWs cs with
  | ']' :: r2 => some (.arr [], r2)
  | r1 =>
    match pj r1 with
    | none => none
    | some (v, r5) =>
      match skipWs r5 with
      | ']' :: r7 => some (.arr [v], r7)
      | ',' :: r7 =>
        match skipWs r7 with
        | ']' :: _ => none
        | r8 =>
          match pj ('[' :: r8) with
          | some (.arr vs, r9) => some (.arr (v :: vs), r9)
          | _ => none
      | _ => none

/-- Recursive-descent JSON value parser with fuel.  Object members and array
elements after a comma are parsed by re-entering the parser on a synthetic
`{`/`[` plus the remaining text (guarding against trailing commas), which
keeps the recursion structural in the fuel.  The input strictly shrinks on
every recursive call, so fuel `length + 1` always suffices. -/
def parseJson : Nat → List Char → Option (PyJson × List Char)
  | 0, _ => none
  | fuel + 1, cs =>
    match cs with
    | [] => none
    | '\x7b' :: rest => parseObjRest (parseJson fuel) rest
    | '[' :: rest => parseArrRest (parseJson fuel) rest
    | '"' :: rest =>
      match parseJString rest [] false with
      | some (s, r) => some (.str s, r)
      | none => none
    | 't' :: 'r' :: 'u' :: 'e' :: rest => some (.bool true, rest)
    | 'f' :: 'a' :: 'l' :: 's' :: 'e' :: rest => some (.bool false, rest)
    | 'n' :: 'u' :: 'l' :: 'l' :: rest => some (.null, rest)
    | cs => parseJNumber cs

/-- `json.loads(s)`: parse one value, allow surrounding whitespace, reject
trailing data. -/
def pyJsonLoads (s : String) : Option PyJson :=
  match parseJson (s.data.length + 1) (skipWs s.data) with
  | some (v, rest) => if skipWs rest = [] then some v else none
  | none => none

/-- `json.dumps` escape for one character (default separators/ASCII model,
restricted to the escapes this pipeline can produce). -/
def escapeChar (c : Char) : List Char :=
  if c = '"' then ['\\', '"']
  else if c = '\\' then ['\\', '\\']
  else if c = '\n' then ['\\', 'n']
  else if c = '\t' then ['\\', 't']
  else if c = '\r' then ['\\', 'r']
  else [c]

/-- Serialized JSON string literal. -/
def serStr (s : String) : List Char :=
  '"' :: (s.data.map escapeChar).flatten ++ ['"']

mutual
/-- `json.dumps` with the default `", "` / `": "` separators. -/
def dumpsList : PyJson → List Char
  | .str s => serStr s
  | .num n => (toString n).data
  | .bool b => if b then "true".data else "false".data
  | .null => "null".data
  | .arr xs => '[' :: dumpsArr xs ++ [']']
  | .obj fs => '\x7b' :: dumpsFields fs ++ ['\x7d']

def dumpsArr : List PyJson → List Char
  | [] => []
  | [x] => dumpsList x
  | x :: xs => dumpsList x ++ ',' :: ' ' :: dumpsArr xs

def dumpsFields : List (String × PyJson) → List Char
  | [] => []
  | [(k, v)] => serStr k ++ ':' :: ' ' :: dumpsList v
  | (k, v) :: fs => serStr k ++ ':' :: ' ' :: dumpsList v ++ ',' :: ' ' :: dumpsFields fs
end

def pyJsonDumps (j : PyJson) : String :=
  String.mk (dumpsList j)

/-- Find the first occurrence of `pat` in a list: `some (before, after)`
with the occurrence removed. -/
def findSubstrSplit (pat : List Char) : List Char → Option (List Char × List Char)
  | [] => if pat.isEmpty then some ([], []) else none
  | c :: rest =>
    if pat.isPrefixOf (c :: rest) then some ([], (c :: rest).drop pat.length)
    else
      match findSubstrSplit pat rest with
      | some (pre, post) => some (c :: pre, post)
      | none => none

/-- One `re.sub(r'<tag>\s*(.*?)\s*```', r'\1', ·, flags=DOTALL)` pass: each
`<tag> ... ```  fenced region is replaced by its whitespace-trimmed content
(the lazy group makes the closing fence the first one after the tag), and
scanning continues after the closing fence. -/
def pyFenceSub (tag : List Char) : Nat → List Char → List Char
  | 0, cs => cs
  | fuel + 1, cs =>
    match findSubstrSplit tag cs with
    | none => cs
    | some (pre, afterTag) =>
      match findSubstrSplit ['`', '`', '`'] afterTag with
      | none => cs
      | some (content, afterClose) =>
        pre ++ stripList content ++ pyFenceSub tag fuel afterClose

def pyFenceSubTop (tag : String) (s : String) : String :=
  String.mk (pyFenceSub tag.data (s.data.length + 1) s.data)

/-- `re.search(r'({.*})', text, re.DOTALL)`: the greedy group spans from the
first `{` to the last `}` (a match exists iff some `}` follows the first
`{`). -/
def braceSearch (cs : List Char) : Option (List Char) :=
  match cs.findIdx? (fun c => c = '\x7b') with
  | none => none
  | some i =>
    match cs.reverse.findIdx? (fun c => c = '\x7d') with
    | none => none
    | some rj =>
      let j := cs.length - 1 - rj
      if i < j then some ((cs.drop i).take (j - i + 1)) else none

/-- `LlamaService._extract_json_from_response(response_text)`; errors carry
the exception message (the code appends a truncated copy of the raw text to
the final message, which the model elides). -/
def extractJsonFromResponse (s : String) : Except String PyJson :=
  if s = "" then .error "Empty response from LLaMA"
  else
    let t0 := pyStrip s
    let t1 := pyFenceSubTop "```json" t0
    let t2 := pyFenceSubTop "```" t1
    let t := pyStrip t2
    match pyJsonLoads t with
    | some v => .ok v
    | none =>
      let attempt1 : Option PyJson :=
        match braceSearch t.data with
        | none => none
        | some content =>
          let opens := content.count '\x7b'
          let closes := content.count '\x7d'
          let content2 :=
            if closes < opens then content ++ List.replicate (opens - closes) '\x7d'
            else content
          pyJsonLoads (String.mk content2)
      match attempt1 with
      | some v => .ok v
      | none =>
        if t.data.head? = some '\x7b' ∧ t.data.getLast? ≠ some '\x7d' then
          match pyJsonLoads (t ++ "\x7d") with
          | some v => .ok v
          | none =>
            match pyJsonLoads (t ++ "\x7d\x7d") with
            | some v => .ok v
            | none =>
              match pyJsonLoads (t ++ "\x7d\x7d\x7d") with
              | some v => .ok v
              | none =>
                match pyJsonLoads (t ++ "\x7d\x7d\x7d\x7d") with
                | some v => .ok v
                | none => .error "Could not extract valid JSON from LLaMA response"
        else .error "Could not extract valid JSON from LLaMA response"

example : pyJsonLoads "\x7b\"a\": 1\x7d" = some (.obj [("a", .num 1)]) := rfl
example : pyJsonLoads "\x7b\"a\": \x7b\"b\": 1\x7d, \"c\": 2\x7d" =
    some (.obj [("a", .obj [("b", .num 1)]), ("c", .num 2)]) := rfl
example : pyJsonLoads "\x7b\"a\": 1" = none := rfl
example : pyJsonLoads "[1, 2, \"x\", true, null]" =
    some (.arr [.num 1, .num 2, .str "x", .bool true, .null]) := rfl
example : pyJsonLoads "\x7b\"a\": 1,\x7d" = none := rfl
example : extractJsonFromResponse "```json\n\x7b\"a\": 1\x7d\n```" =
    .ok (.obj [("a", .num 1)]) := rfl

/-- Claim C3 (counterexample): truncating the serialized object
`{"a": {"b": 1}, "c": 2}` by deleting its final closing brace makes the
greedy-regex branch match only up to the LAST `}` present — the inner
object's — and brace-completion then parses a DIFFERENT, truncated object
`{"a": {"b": 1}}` instead of the original (and instead of raising). -/
theorem C3_extract_truncation_counterexample :
    extractJsonFromResponse "\x7b\"a\": \x7b\"b\": 1\x7d, \"c\": 2" =
      .ok (.obj [("a", .obj [("b", .num 1)])]) ∧
    (PyJson.obj [("a", .obj [("b", .num 1)])]) ≠
      (PyJson.obj [("a", .obj [("b", .num 1)]), ("c", .num 2)]) ∧
    pyJsonDumps (.obj [("a", .obj [("b", .num 1)]), ("c", .num 2)]) =
      "\x7b\"a\": \x7b\"b\": 1\x7d, \"c\": 2\x7d" := by
  refine ⟨rfl, by simp, ?_⟩
  simp [pyJsonDumps, dumpsList, dumpsFields, serStr, escapeChar]
  rfl

/-! ### The brace-completion property for flat objects -/

/-- A character that `json.dumps` emits verbatim and that is inert for every
step of the extraction pipeline: printable ASCII, no quote, no backslash, no
brace, no backtick. -/
def plainChar (c : Char) : Prop :=
  32 ≤ c.toNat ∧ c.toNat ≤ 126 ∧ c ≠ '"' ∧ c ≠ '\\' ∧ c ≠ '\x7b' ∧ c ≠ '\x7d' ∧ c ≠ '`'

instance (c : Char) : Decidable (plainChar c) := by
  unfold plainChar
  infer_instance

/-- All characters of a string are plain. -/
def plainStr (s : String) : Prop :=
  ∀ c ∈ s.data, plainChar c

instance (s : String) : Decidable (plainStr s) := by
  unfold plainStr
  infer_instance

/-- A flat object: every field is a plain key with a plain string value. -/
def flatStrObj (pairs : List (String × PyJson)) : Prop :=
  ∀ p ∈ pairs, plainStr p.1 ∧ ∃ s, p.2 = .str s ∧ plainStr s

theorem escapeChar_plain {c : Char} (h : plainChar c) : escapeChar c = [c] := by
  obtain ⟨h32, _, hq, hb, _, _, _⟩ := h
  have hn : c ≠ '\n' := char_ne_of_toNat_ne (by
    have : ('\n' : Char).toNat = 10 := by decide
    omega)
  have ht : c ≠ '\t' := char_ne_of_toNat_ne (by
    have : ('\t' : Char).toNat = 9 := by decide
    omega)
  have hr : c ≠ '\r' := char_ne_of_toNat_ne (by
    have : ('\r' : Char).toNat = 13 := by decide
    omega)
  simp [escapeChar, hq, hb, hn, ht, hr]

theorem serStr_plain {s : String} (h : plainStr s) :
    serStr s = '"' :: s.data ++ ['"'] := by
  unfold serStr
  congr 1
  have : s.data.map escapeChar = s.data.map (fun c => [c]) :=
    List.map_congr_left (fun c hc => escapeChar_plain (h c hc))
  rw [this]
  have : ∀ l : List Char, (l.map (fun c => [c])).flatten = l := by
    intro l
    induction l with
    | nil => rfl
    | cons c rest ih => simp [ih]
  rw [this]

theorem parseJString_plain :
    ∀ (l : List Char), (∀ c ∈ l, plainChar c) → ∀ (acc rp : List Char),
      parseJString (l ++ '"' :: rp) acc false =
        some (String.mk (acc.reverse ++ l), rp) := by
  intro l
  induction l with
  | nil =>
    intro _ acc rp
    simp [parseJString]
  | cons c rest ih =>
    intro hpl acc rp
    obtain ⟨h32, _, hq, hb, _, _, _⟩ := hpl c (List.mem_cons_self c rest)
    have hctl : ¬ c.toNat < 32 := by omega
    show parseJString (c :: (rest ++ '"' :: rp)) acc false = _
    unfold parseJString
    rw [if_neg hq, if_neg hb, if_neg hctl]
    rw [ih (fun d hd => hpl d (List.mem_cons_of_mem c hd)) (c :: acc) rp]
    congr 1
    congr 1
    simp

theorem skipWs_cons_nonws {c : Char} (h : pyWs c = false) (l : List Char) :
    skipWs (c :: l) = c :: l := by
  unfold skipWs
  exact List.dropWhile_cons_of_neg (by simp [h])

theorem skipWs_cons_ws {c : Char} (h : pyWs c = true) (l : List Char) :
    skipWs (c :: l) = skipWs l := by
  unfold skipWs
  exact List.dropWhile_cons_of_pos h

theorem dumpsFields_head {pairs : List (String × PyJson)} {p : String × PyJson}
    {ps : List (String × PyJson)} (he : pairs = p :: ps) :
    ∃ t, dumpsFields pairs = '"' :: t := by
  subst he
  obtain ⟨k, v⟩ := p
  cases ps with
  | nil => exact ⟨_, rfl⟩
  | cons q qs => exact ⟨_, rfl⟩

theorem dumpsFields_last {pairs : List (String × PyJson)} (hflat : flatStrObj pairs)
    (hne : pairs ≠ []) : (dumpsFields pairs).getLast? = some '"' := by
  induction pairs with
  | nil => exact absurd rfl hne
  | cons p ps ih =>
    obtain ⟨k, v⟩ := p
    obtain ⟨_, s, hv, hs⟩ := hflat (k, v) (List.mem_cons_self _ ps)
    subst hv
    cases ps with
    | nil =>
      show (serStr k ++ ':' :: ' ' :: dumpsList (.str s)).getLast? = some '"'
      have : dumpsList (.str s) = serStr s := by simp [dumpsList]
      rw [this, serStr_plain hs]
      rw [show (':' :: ' ' :: ('"' :: s.data ++ ['"'])) =
        (':' :: ' ' :: '"' :: s.data) ++ ['"'] from by simp]
      rw [← List.append_assoc]
      exact List.getLast?_concat _
    | cons q qs =>
      show (serStr k ++ ':' :: ' ' :: dumpsList (.str s) ++
        ',' :: ' ' :: dumpsFields (q :: qs)).getLast? = some '"'
      have hih := ih (fun r hr => hflat r (List.mem_cons_of_mem _ hr)) (by simp)
      rw [List.getLast?_append]
      have h2 : (',' :: ' ' :: dumpsFields (q :: qs)).getLast? = some '"' := by
        rw [show (',' :: ' ' :: dumpsFields (q :: qs)) =
          [','] ++ ([' '] ++ dumpsFields (q :: qs)) from by simp]
        rw [List.getLast?_append, List.getLast?_append, hih]
        rfl
      rw [h2]
      rfl

/-- Symbolic execution of one serialized `"k": "s"` member from the opening
brace up to the character after the value. -/
theorem parse_member_step (k s : String) (hk : plainStr k) (hs : plainStr s)
    (f2 : Nat) (tl : List Char) :
    parseJson (f2 + 2)
      ('\x7b' :: '"' :: (k.data ++ '"' :: ':' :: ' ' :: '"' :: (s.data ++ '"' :: tl))) =
      objStep (parseJson (f2 + 1)) k (.str s) tl := by
  rw [show parseJson (f2 + 2)
      ('\x7b' :: '"' :: (k.data ++ '"' :: ':' :: ' ' :: '"' :: (s.data ++ '"' :: tl))) =
      parseObjRest (parseJson (f2 + 1))
        ('"' :: (k.data ++ '"' :: ':' :: ' ' :: '"' :: (s.data ++ '"' :: tl))) from rfl]
  unfold parseObjRest
  rw [skipWs_cons_nonws (by decide)]
  simp only []
  rw [parseJString_plain k.data hk [] _]
  simp only [List.reverse_nil, List.nil_append, string_mk_data]
  rw [skipWs_cons_nonws (by decide)]
  simp only []
  rw [skipWs_cons_ws (by decide), skipWs_cons_nonws (by decide)]
  rw [show parseJson (f2 + 1) ('"' :: (s.data ++ '"' :: tl)) =
      (match parseJString (s.data ++ '"' :: tl) [] false with
       | some (t, r) => some (.str t, r)
       | none => none) from rfl]
  rw [parseJString_plain s.data hs [] _]
  simp only [List.reverse_nil, List.nil_append, string_mk_data]

/-- The comma branch of `objStep` when the next member starts with a quote:
the parser is re-entered on a synthetic opening brace. -/
theorem objStep_comma (pj : List Char → Option (PyJson × List Char)) (k : String)
    (v : PyJson) (t : List Char) :
    objStep pj k v (',' :: ' ' :: '"' :: t) =
      (match pj ('\x7b' :: '"' :: t) with
       | some (PyJson.obj fs, r9) => some (PyJson.obj ((k, v) :: fs), r9)
       | _ => none) := rfl

/-- Round trip for serialized flat objects: parsing `{` + serialized members
+ `}` + rest yields the original field list, and parsing the truncated text
(missing the final `}`) fails. -/
theorem parse_dumpsFields (pairs : List (String × PyJson)) :
    flatStrObj pairs → ∀ f2 : Nat, 2 * pairs.length ≤ f2 + 2 →
    (∀ rest, parseJson (f2 + 2) ('\x7b' :: (dumpsFields pairs ++ '\x7d' :: rest)) =
        some (PyJson.obj pairs, rest)) ∧
    parseJson (f2 + 2) ('\x7b' :: dumpsFields pairs) = none := by
  induction pairs with
  | nil =>
    intro _ f2 _
    refine ⟨fun rest => ?_, rfl⟩
    show parseObjRest (parseJson (f2 + 1)) ('\x7d' :: rest) = _
    unfold parseObjRest
    rw [skipWs_cons_nonws (by decide)]
    rfl
  | cons p ps ih =>
    intro hflat f2 hf
    obtain ⟨k, v⟩ := p
    obtain ⟨hk, s, hv, hs⟩ := hflat (k, v) (List.mem_cons_self _ _)
    subst hv
    have hflat2 : flatStrObj ps := fun r hr => hflat r (List.mem_cons_of_mem _ hr)
    cases ps with
    | nil =>
      constructor
      · intro rest
        have e : '\x7b' :: (dumpsFields [(k, PyJson.str s)] ++ '\x7d' :: rest) =
            '\x7b' :: '"' :: (k.data ++ '"' :: ':' :: ' ' :: '"' ::
              (s.data ++ '"' :: ('\x7d' :: rest))) := by
          show '\x7b' :: ((serStr k ++ ':' :: ' ' :: dumpsList (.str s)) ++ '\x7d' :: rest) = _
          rw [show dumpsList (.str s) = serStr s from rfl, serStr_plain hk, serStr_plain hs]
          simp
        rw [e, parse_member_step k s hk hs f2 _]
        unfold objStep
        rw [skipWs_cons_nonws (by decide)]
        rfl
      · have e : '\x7b' :: dumpsFields [(k, PyJson.str s)] =
            '\x7b' :: '"' :: (k.data ++ '"' :: ':' :: ' ' :: '"' ::
              (s.data ++ '"' :: ([] : List Char))) := by
          show '\x7b' :: (serStr k ++ ':' :: ' ' :: dumpsList (.str s)) = _
          rw [show dumpsList (.str s) = serStr s from rfl, serStr_plain hk, serStr_plain hs]
          simp
        rw [e, parse_member_step k s hk hs f2 []]
        rfl
    | cons q qs =>
      obtain ⟨t, ht⟩ := @dumpsFields_head (q :: qs) q qs rfl
      obtain ⟨f3, rfl⟩ : ∃ f3, f2 = f3 + 1 := ⟨f2 - 1, by
        simp [List.length_cons] at hf
        omega⟩
      have hf3 : 2 * (q :: qs).length ≤ f3 + 2 := by
        simp [List.length_cons] at hf ⊢
        omega
      have ihs := ih hflat2 f3 hf3
      constructor
      · intro rest
        have e : '\x7b' :: (dumpsFields ((k, PyJson.str s) :: q :: qs) ++ '\x7d' :: rest) =
            '\x7b' :: '"' :: (k.data ++ '"' :: ':' :: ' ' :: '"' ::
              (s.data ++ '"' :: (',' :: ' ' ::
                (dumpsFields (q :: qs) ++ '\x7d' :: rest)))) := by
          show '\x7b' :: ((serStr k ++ ':' :: ' ' :: dumpsList (.str s) ++
            ',' :: ' ' :: dumpsFields (q :: qs)) ++ '\x7d' :: rest) = _
          rw [show dumpsList (.str s) = serStr s from rfl, serStr_plain hk, serStr_plain hs]
          simp
        rw [e, parse_member_step k s hk hs (f3 + 1) _]
        rw [ht, List.cons_append, objStep_comma]
        rw [← List.cons_append, ← ht, ihs.1 rest]
      · have e : '\x7b' :: dumpsFields ((k, PyJson.str s) :: q :: qs) =
            '\x7b' :: '"' :: (k.data ++ '"' :: ':' :: ' ' :: '"' ::
              (s.data ++ '"' :: (',' :: ' ' :: dumpsFields (q :: qs)))) := by
          show '\x7b' :: (serStr k ++ ':' :: ' ' :: dumpsList (.str s) ++
            ',' :: ' ' :: dumpsFields (q :: qs)) = _
          rw [show dumpsList (.str s) = serStr s from rfl, serStr_plain hk, serStr_plain hs]
          simp
        rw [e, parse_member_step k s hk hs (f3 + 1) _]
        rw [ht, objStep_comma]
        rw [← ht, ihs.2]

theorem dumpsFields_length (pairs : List (String × PyJson)) :
    2 * pairs.length ≤ (dumpsFields pairs).length := by
  induction pairs with
  | nil => simp [show dumpsFields [] = ([] : List Char) from rfl]
  | cons p ps ih =>
    obtain ⟨k, v⟩ := p
    cases ps with
    | nil =>
      show 2 * [(k, v)].length ≤ (serStr k ++ ':' :: ' ' :: dumpsList v).length
      simp [serStr, List.length_append]
      omega
    | cons q qs =>
      show 2 * ((k, v) :: q :: qs).length ≤
        (serStr k ++ ':' :: ' ' :: dumpsList v ++ ',' :: ' ' :: dumpsFields (q :: qs)).length
      have h2 := ih
      simp [serStr, List.length_append, List.length_cons] at h2 ⊢
      omega

theorem mem_serStr {d : Char} {x : String} (hx : plainStr x) (h : d ∈ serStr x) :
    d = '"' ∨ plainChar d := by
  rw [serStr_plain hx] at h
  rcases List.mem_cons.mp h with rfl | h2
  · exact Or.inl rfl
  · rcases List.mem_append.mp h2 with h3 | h3
    · exact Or.inr (hx d h3)
    · exact Or.inl (List.mem_singleton.mp h3)

/-- Characters that `json.dumps` never emits for a flat object body. -/
theorem not_mem_dumpsFields (d : Char) (hd1 : d ≠ '"') (hd2 : d ≠ ':')
    (hd3 : d ≠ ' ') (hd4 : d ≠ ',') (hd5 : ¬ plainChar d) :
    ∀ pairs : List (String × PyJson), flatStrObj pairs → d ∉ dumpsFields pairs := by
  intro pairs
  induction pairs with
  | nil =>
    intro _ hc
    rw [show dumpsFields [] = ([] : List Char) from rfl] at hc
    exact (List.not_mem_nil d) hc
  | cons p ps ih =>
    intro hflat hc
    obtain ⟨k, v⟩ := p
    obtain ⟨hk, s, hv, hs⟩ := hflat (k, v) (List.mem_cons_self _ _)
    subst hv
    have hflat2 : flatStrObj ps := fun r hr => hflat r (List.mem_cons_of_mem _ hr)
    have member : d ∈ serStr k ++ ':' :: ' ' :: dumpsList (PyJson.str s) → False := by
      intro h1
      rcases List.mem_append.mp h1 with h2 | h2
      · rcases mem_serStr hk h2 with rfl | hp
        · exact hd1 rfl
        · exact hd5 hp
      · rcases List.mem_cons.mp h2 with rfl | h3
        · exact hd2 rfl
        · rcases List.mem_cons.mp h3 with rfl | h4
          · exact hd3 rfl
          · rw [show dumpsList (PyJson.str s) = serStr s from rfl] at h4
            rcases mem_serStr hs h4 with rfl | hp
            · exact hd1 rfl
            · exact hd5 hp
    cases ps with
    | nil =>
      rw [show dumpsFields [(k, PyJson.str s)] =
        serStr k ++ ':' :: ' ' :: dumpsList (PyJson.str s) from rfl] at hc
      exact member hc
    | cons q qs =>
      rw [show dumpsFields ((k, PyJson.str s) :: q :: qs) =
        serStr k ++ ':' :: ' ' :: dumpsList (PyJson.str s) ++
          ',' :: ' ' :: dumpsFields (q :: qs) from rfl] at hc
      rcases List.mem_append.mp hc with h1 | h1
      · exact member h1
      · rcases List.mem_cons.mp h1 with rfl | h2
        · exact hd4 rfl
        · rcases List.mem_cons.mp h2 with rfl | h3
          · exact hd3 rfl
          · exact ih hflat2 h3

theorem findSubstrSplit_none {c : Char} (p : List Char) :
    ∀ cs : List Char, c ∉ cs → findSubstrSplit (c :: p) cs = none := by
  intro cs
  induction cs with
  | nil => intro _; rfl
  | cons d rest ih =>
    intro h
    have hne : (c :: p).isPrefixOf (d :: rest) = false := by
      have hcd : c ≠ d := fun e => h (by rw [e]; exact List.mem_cons_self d rest)
      simp [List.isPrefixOf, hcd]
    unfold findSubstrSplit
    simp only [hne, Bool.false_eq_true, if_false]
    rw [ih (fun hm => h (List.mem_cons_of_mem d hm))]

theorem pyFenceSub_no_tag {c : Char} {p : List Char} (fuel : Nat) (cs : List Char)
    (h : c ∉ cs) : pyFenceSub (c :: p) fuel cs = cs := by
  cases fuel with
  | zero => rfl
  | succ f =>
    unfold pyFenceSub
    rw [findSubstrSplit_none p cs h]

theorem pyFenceSubTop_no_tag {tag : String} {c : Char} {p : List Char}
    (htag : tag.data = c :: p) (s : String) (h : c ∉ s.data) :
    pyFenceSubTop tag s = s := by
  unfold pyFenceSubTop
  rw [htag, pyFenceSub_no_tag _ _ h, string_mk_data]

theorem braceSearch_none {cs : List Char} (h : '\x7d' ∉ cs) : braceSearch cs = none := by
  have hnone : cs.reverse.findIdx? (fun c => c = '\x7d') = none := by
    rw [List.findIdx?_eq_none_iff]
    intro x hx
    simp only [decide_eq_false_iff_not]
    exact fun e => h (e ▸ List.mem_reverse.mp hx)
  unfold braceSearch
  cases hfi : cs.findIdx? (fun c => c = '\x7b') with
  | none => rfl
  | some i =>
    simp only []
    rw [hnone]

theorem pyJsonLoads_truncated (pairs : List (String × PyJson))
    (hflat : flatStrObj pairs) :
    pyJsonLoads (String.mk ('\x7b' :: dumpsFields pairs)) = none := by
  unfold pyJsonLoads
  rw [show (String.mk ('\x7b' :: dumpsFields pairs)).data =
    '\x7b' :: dumpsFields pairs from rfl]
  rw [skipWs_cons_nonws (by decide)]
  rw [show ('\x7b' :: dumpsFields pairs).length + 1 = (dumpsFields pairs).length + 2
    from by simp]
  rw [(parse_dumpsFields pairs hflat (dumpsFields pairs).length
    (by have := dumpsFields_length pairs; omega)).2]

theorem pyJsonLoads_completed (pairs : List (String × PyJson))
    (hflat : flatStrObj pairs) :
    pyJsonLoads (String.mk ('\x7b' :: dumpsFields pairs) ++ "\x7d") =
      some (PyJson.obj pairs) := by
  unfold pyJsonLoads
  have hdata : (String.mk ('\x7b' :: dumpsFields pairs) ++ "\x7d").data =
      '\x7b' :: (dumpsFields pairs ++ '\x7d' :: []) := by
    rw [string_data_append]
    show ('\x7b' :: dumpsFields pairs) ++ ['\x7d'] = _
    simp
  rw [hdata, skipWs_cons_nonws (by decide)]
  rw [show ('\x7b' :: (dumpsFields pairs ++ '\x7d' :: [])).length + 1 =
    ((dumpsFields pairs).length + 1) + 2 from by simp]
  rw [(parse_dumpsFields pairs hflat ((dumpsFields pairs).length + 1)
    (by have := dumpsFields_length pairs; omega)).1 []]
  rfl

/-- Claim C3 (amended): for the serialization of a flat object (plain keys,
plain string values) truncated by deleting its final closing brace,
`_extract_json_from_response` recovers exactly the original object: the
direct parse fails, the greedy-regex branch finds no `}` at all, and the
brace-appending branch restores the deleted `}` on its first attempt. -/
theorem C3_extract_brace_completion_amended (pairs : List (String × PyJson))
    (hflat : flatStrObj pairs) (hne : pairs ≠ []) :
    extractJsonFromResponse
        (String.mk ((pyJsonDumps (PyJson.obj pairs)).data.dropLast)) =
      .ok (PyJson.obj pairs) := by
  have hdrop : (pyJsonDumps (PyJson.obj pairs)).data.dropLast =
      '\x7b' :: dumpsFields pairs := by
    show (dumpsList (PyJson.obj pairs)).dropLast = _
    rw [show dumpsList (PyJson.obj pairs) =
      ('\x7b' :: dumpsFields pairs) ++ ['\x7d'] from rfl]
    rw [List.dropLast_concat]
  rw [hdrop]
  have hlast : ('\x7b' :: dumpsFields pairs).getLast? = some '"' := by
    rw [show ('\x7b' :: dumpsFields pairs) = ['\x7b'] ++ dumpsFields pairs from rfl,
      List.getLast?_append, dumpsFields_last hflat hne]
    rfl
  have hback : '`' ∉ ('\x7b' :: dumpsFields pairs) := by
    intro hm
    rcases List.mem_cons.mp hm with he | hm2
    · exact absurd he (by decide)
    · exact not_mem_dumpsFields '`' (by decide) (by decide) (by decide) (by decide)
        (by decide) pairs hflat hm2
  have hnoclose : '\x7d' ∉ ('\x7b' :: dumpsFields pairs) := by
    intro hm
    rcases List.mem_cons.mp hm with he | hm2
    · exact absurd he (by decide)
    · exact not_mem_dumpsFields '\x7d' (by decide) (by decide) (by decide) (by decide)
        (by decide) pairs hflat hm2
  have hstrip : pyStrip (String.mk ('\x7b' :: dumpsFields pairs)) =
      String.mk ('\x7b' :: dumpsFields pairs) := by
    refine pyStrip_eq_self (fun c t he => ?_) (fun c he => ?_)
    · injection he with h1 _
      rw [← h1]
      decide
    · rw [show (String.mk ('\x7b' :: dumpsFields pairs)).data =
        '\x7b' :: dumpsFields pairs from rfl, hlast] at he
      injection he with h1
      rw [← h1]
      decide
  have hf1 : pyFenceSubTop "```json" (String.mk ('\x7b' :: dumpsFields pairs)) =
      String.mk ('\x7b' :: dumpsFields pairs) :=
    pyFenceSubTop_no_tag rfl _ hback
  have hf2 : pyFenceSubTop "```" (String.mk ('\x7b' :: dumpsFields pairs)) =
      String.mk ('\x7b' :: dumpsFields pairs) :=
    pyFenceSubTop_no_tag rfl _ hback
  have hloads : pyJsonLoads (String.mk ('\x7b' :: dumpsFields pairs)) = none :=
    pyJsonLoads_truncated pairs hflat
  have hbrace : braceSearch (String.mk ('\x7b' :: dumpsFields pairs)).data = none :=
    braceSearch_none hnoclose
  have hcond : (String.mk ('\x7b' :: dumpsFields pairs)).data.head? = some '\x7b' ∧
      (String.mk ('\x7b' :: dumpsFields pairs)).data.getLast? ≠ some '\x7d' := by
    refine ⟨rfl, ?_⟩
    rw [show (String.mk ('\x7b' :: dumpsFields pairs)).data =
      '\x7b' :: dumpsFields pairs from rfl, hlast]
    simp
  have hcomplete : pyJsonLoads (String.mk ('\x7b' :: dumpsFields pairs) ++ "\x7d") =
      some (PyJson.obj pairs) := pyJsonLoads_completed pairs hflat
  have hnempty : String.mk ('\x7b' :: dumpsFields pairs) ≠ "" := by
    intro he
    have : ('\x7b' :: dumpsFields pairs) = [] := congrArg String.data he
    exact absurd this (by simp)
  unfold extractJsonFromResponse
  rw [if_neg hnempty]
  simp only []
  rw [hstrip, hf1, hf2, hstrip, hloads]
  simp only []
  rw [hbrace]
  simp only []
  rw [if_pos hcond, hcomplete]

theorem C3_extract_brace_completion_witness :
    flatStrObj [("a", PyJson.str "b")] ∧
    ([("a", PyJson.str "b")] : List (String × PyJson)) ≠ [] ∧
    extractJsonFromResponse
        (String.mk ((pyJsonDumps (PyJson.obj [("a", PyJson.str "b")])).data.dropLast)) =
      .ok (PyJson.obj [("a", PyJson.str "b")]) :=
  have hf : flatStrObj [("a", PyJson.str "b")] := fun p hp => by
    rw [List.mem_singleton] at hp
    subst hp
    exact ⟨by decide, "b", rfl, by decide⟩
  ⟨hf, by simp, C3_extract_brace_completion_amended [("a", PyJson.str "b")] hf (by simp)⟩

/-! ### Concept backfill and strict output validation -/

/-- `json_data.get(k, default)` on an insertion-ordered dict. -/
def dictGet (d : List (String × PyJson)) (k : String) (dflt : PyJson) : PyJson :=
  match d.lookup k with
  | some v => v
  | none => dflt

/-- `k in json_data`. -/
def dictContains (d : List (String × PyJson)) (k : String) : Bool :=
  (d.lookup k).isSome

/-- `json_data[k] = v`: overwrite in place, else append (insertion order). -/
def dictSet : List (String × PyJson) → String → PyJson → List (String × PyJson)
  | [], k, v => [(k, v)]
  | (k0, v0) :: rest, k, v =>
    if k0 = k then (k0, v) :: rest else (k0, v0) :: dictSet rest k v

/-- `if k not in json_data: json_data[k] = v`. -/
def padKey (d : List (String × PyJson)) (k : String) (v : PyJson) :
    List (String × PyJson) :=
  if dictContains d k then d else dictSet d k v

/-- `not image_prompt or not str(image_prompt).strip()` on the decoded JSON
value of `image_prompt`.  For every truthy non-string value `str(v)` is a
non-empty, non-whitespace rendering (`[1]`, `True`, `7`, ...), so its
`.strip()` is never empty; only a string can be truthy yet strip to empty. -/
def imagePromptMissing : PyJson → Bool
  | .str s => decide (s = "") || decide (pyStrip s = "")
  | .num n => decide (n = 0)
  | .bool b => !b
  | .null => true
  | .arr xs => xs.isEmpty
  | .obj fs => fs.isEmpty

/-- Python `repr` of a string: single-quoted unless the text contains a
single quote and no double quote; the backslash, the quote character and the
control characters this pipeline's strings can carry are escaped. -/
def pyReprStr (s : String) : List Char :=
  let sq : Char := Char.ofNat 39
  let q : Char := if sq ∈ s.data ∧ '"' ∉ s.data then '"' else sq
  q :: (s.data.map (fun c =>
    if c = '\\' then ['\\', '\\']
    else if c = q then ['\\', q]
    else if c = '\n' then ['\\', 'n']
    else if c = '\r' then ['\\', 'r']
    else if c = '\t' then ['\\', 't']
    else [c])).flatten ++ [q]

mutual
/-- Python `str`/`repr` of a decoded JSON value, as the f-string in
`_get_fallback_image_prompt` renders a container caption (for containers
`str` falls back to `repr`, which quotes inner strings). -/
def pyRepr : PyJson → List Char
  | .str s => pyReprStr s
  | .num n => (toString n).data
  | .bool b => if b then "True".data else "False".data
  | .null => "None".data
  | .arr xs => '[' :: pyReprArr xs ++ [']']
  | .obj fs => '\x7b' :: pyReprFields fs ++ ['\x7d']

def pyReprArr : List PyJson → List Char
  | [] => []
  | [x] => pyRepr x
  | x :: xs => pyRepr x ++ ',' :: ' ' :: pyReprArr xs

def pyReprFields : List (String × PyJson) → List Char
  | [] => []
  | [(k, v)] => pyReprStr k ++ ':' :: ' ' :: pyRepr v
  | (k, v) :: fs => pyReprStr k ++ ':' :: ' ' :: pyRepr v ++ ',' :: ' ' :: pyReprFields fs
end

/-- The length cap of `_get_fallback_image_prompt`: a topic over 100
characters is cut to its first 97 plus `"..."`. -/
def capTopic (base_topic : String) : String :=
  if 100 < base_topic.length then pySliceToI base_topic 97 ++ "..." else base_topic

/-- `base_topic = caption if caption else company_description` followed by
`if len(base_topic) > 100: base_topic = base_topic[:97] + "..."`, executed
on the decoded JSON caption value exactly as Python does: a falsy caption
(empty string, 0, False, None, empty container) selects the description; a
truthy `int`/`bool` raises `TypeError` at `len(base_topic)`; a container of
more than 100 elements raises at `base_topic[:97] + "..."` (concatenating a
string onto a list, or slicing a dict); a truthy container of at most 100
elements is kept and later rendered by the f-string via its `repr`. -/
def baseTopic (company_description : String) : PyJson → Except String String
  | .str s => .ok (capTopic (if s = "" then company_description else s))
  | .num n =>
    if n = 0 then .ok (capTopic company_description)
    else .error "TypeError: object of type 'int' has no len()"
  | .bool b =>
    if b then .error "TypeError: object of type 'bool' has no len()"
    else .ok (capTopic company_description)
  | .null => .ok (capTopic company_description)
  | .arr xs =>
    if xs.isEmpty then .ok (capTopic company_description)
    else if 100 < xs.length then
      .error "TypeError: can only concatenate list (not \"str\") to list"
    else .ok (String.mk (pyRepr (.arr xs)))
  | .obj fs =>
    if fs.isEmpty then .ok (capTopic company_description)
    else if 100 < fs.length then .error "TypeError: unhashable type: 'slice'"
    else .ok (String.mk (pyRepr (.obj fs)))

/-- `LlamaService._get_fallback_image_prompt(company_description, caption)`
on the decoded JSON value `json_data.get("caption", "")`; the `TypeError`
paths surface as errors. -/
def getFallbackImagePrompt (company_description : String) (caption : PyJson) :
    Except String String :=
  match baseTopic company_description caption with
  | .error e => .error e
  | .ok t =>
    .ok ("A funny and relatable meme scene related to: " ++ t ++
      ". High quality, vibrant, meme style.")

/-- The image-prompt resilience step: an empty or missing `image_prompt` is
replaced by the synthesized fallback built from the caption (or, failing
that, the company description); computing the fallback can raise. -/
def ipFill (company_description : String) (json_data : List (String × PyJson)) :
    Except String (List (String × PyJson)) :=
  if imagePromptMissing (dictGet json_data "image_prompt" (.str "")) then
    match getFallbackImagePrompt company_description
        (dictGet json_data "caption" (.str "")) with
    | .error e => .error e
    | .ok fb => .ok (dictSet json_data "image_prompt" (.str fb))
  else .ok json_data

/-- The resilience backfill block of `generate_meme_concept`: replace an
empty/missing `image_prompt` by the synthesized fallback (which can raise
`TypeError` for a truthy non-string caption), then give each missing field
its default. -/
def backfillJson (company_description : String)
    (json_data : List (String × PyJson)) :
    Except String (List (String × PyJson)) :=
  match ipFill company_description json_data with
  | .error e => .error e
  | .ok d0 =>
    let d1 := padKey d0 "negative_prompt" (.str "text, watermark, blurry")
    let d2 := padKey d1 "text_position" (.str "bottom")
    let d3 := padKey d2 "caption"
      (.str ("Meme about " ++ pySliceToI company_description 30))
    let d4 := padKey d3 "keywords" (.arr [])
    let d5 := padKey d4 "use_cases" (.arr [])
    let d6 := padKey d5 "intent" (.str "")
    .ok (padKey d6 "template_slots" (.obj []))

/-- The validated concept record: `LlamaOutput` declares exactly these four
fields. -/
structure LlamaOutputRec where
  image_prompt : String
  negative_prompt : String
  caption : String
  text_position : String
deriving DecidableEq

def llamaOutputFields : List String :=
  ["image_prompt", "negative_prompt", "caption", "text_position"]

/-- `LlamaOutput(**json_data)` under `extra = "forbid"`: any key outside the
four declared fields is rejected; otherwise the declared fields are required
with their `min_length` and top/bottom-enum constraints. -/
def validateLlamaOutput (json_data : List (String × PyJson)) :
    Except String LlamaOutputRec :=
  if json_data.any (fun p => !llamaOutputFields.contains p.1) then
    .error "extra fields not permitted"
  else
    match json_data.lookup "image_prompt", json_data.lookup "negative_prompt",
        json_data.lookup "caption", json_data.lookup "text_position" with
    | some (.str ip), some (.str np), some (.str cap), some (.str tp) =>
      if ip.length < 1 then
        .error "image_prompt: ensure this value has at least 1 characters"
      else if cap.length < 1 then
        .error "caption: ensure this value has at least 1 characters"
      else if tp = "top" || tp = "bottom" then .ok ⟨ip, np, cap, tp⟩
      else .error "text_position: value is not a valid enumeration member"
    | _, _, _, _ => .error "field required"

theorem dictSet_lookup_self (d : List (String × PyJson)) (k : String) (v : PyJson) :
    (dictSet d k v).lookup k = some v := by
  induction d with
  | nil => simp [dictSet, List.lookup]
  | cons p rest ih =>
    obtain ⟨k0, v0⟩ := p
    by_cases h : k0 = k
    · subst h
      simp [dictSet, List.lookup]
    · have h2 : ¬ k = k0 := fun e => h e.symm
      simp [dictSet, h, List.lookup, beq_eq_false_iff_ne.mpr h2, ih]

theorem dictSet_lookup_ne (d : List (String × PyJson)) (k : String) (v : PyJson)
    (k' : String) (h : k' ≠ k) : (dictSet d k v).lookup k' = d.lookup k' := by
  induction d with
  | nil => simp [dictSet, List.lookup, beq_eq_false_iff_ne.mpr h]
  | cons p rest ih =>
    obtain ⟨k0, v0⟩ := p
    by_cases h0 : k0 = k
    · subst h0
      simp [dictSet, List.lookup, beq_eq_false_iff_ne.mpr h]
    · by_cases hbk : k' = k0
      · subst hbk
        simp [dictSet, h0, List.lookup]
      · simp [dictSet, h0, List.lookup, beq_eq_false_iff_ne.mpr hbk, ih]

theorem lookup_mem {d : List (String × PyJson)} {k : String} {v : PyJson}
    (h : d.lookup k = some v) : (k, v) ∈ d := by
  induction d with
  | nil => simp [List.lookup] at h
  | cons p rest ih =>
    obtain ⟨k0, v0⟩ := p
    by_cases hk : k = k0
    · subst hk
      simp [List.lookup] at h
      subst h
      exact List.mem_cons_self _ _
    · simp [List.lookup, beq_eq_false_iff_ne.mpr hk] at h
      exact List.mem_cons_of_mem _ (ih h)

theorem dictSet_contains_ne (d : List (String × PyJson)) (k : String) (v : PyJson)
    (k' : String) (h : k' ≠ k) :
    dictContains (dictSet d k v) k' = dictContains d k' := by
  unfold dictContains
  rw [dictSet_lookup_ne d k v k' h]

theorem padKey_contains_self (d : List (String × PyJson)) (k : String) (v : PyJson) :
    dictContains (padKey d k v) k = true := by
  unfold padKey
  by_cases h : dictContains d k = true
  · rw [if_pos h]
    exact h
  · rw [if_neg h]
    unfold dictContains
    rw [dictSet_lookup_self]
    rfl

theorem padKey_lookup_ne (d : List (String × PyJson)) (k : String) (v : PyJson)
    (k' : String) (h : k' ≠ k) : (padKey d k v).lookup k' = d.lookup k' := by
  unfold padKey
  by_cases hc : dictContains d k = true
  · rw [if_pos hc]
  · rw [if_neg hc]
    exact dictSet_lookup_ne d k v k' h

theorem padKey_contains_ne (d : List (String × PyJson)) (k : String) (v : PyJson)
    (k' : String) (h : k' ≠ k) :
    dictContains (padKey d k v) k' = dictContains d k' := by
  unfold dictContains
  rw [padKey_lookup_ne d k v k' h]

theorem padKey_contains_mono (d : List (String × PyJson)) (k : String) (v : PyJson)
    (k' : String) (h : dictContains d k' = true) :
    dictContains (padKey d k v) k' = true := by
  by_cases hk : k' = k
  · subst hk
    exact padKey_contains_self d k' v
  · rw [padKey_contains_ne d k v k' hk]
    exact h

theorem padKey_lookup_missing (d : List (String × PyJson)) (k : String) (v : PyJson)
    (h : dictContains d k = false) : (padKey d k v).lookup k = some v := by
  unfold padKey
  rw [if_neg (by rw [h]; exact Bool.false_ne_true)]
  exact dictSet_lookup_self d k v

theorem padKey_lookup_some (d : List (String × PyJson)) (k : String) (v : PyJson)
    (k' : String) (v' : PyJson) (h : d.lookup k' = some v') :
    (padKey d k v).lookup k' = some v' := by
  by_cases hk : k' = k
  · subst hk
    unfold padKey
    rw [if_pos (by unfold dictContains; rw [h]; rfl)]
    exact h
  · rw [padKey_lookup_ne d k v k' hk]
    exact h

theorem bool_eq_false {b : Bool} (h : ¬ b = true) : b = false := by
  cases b
  · rfl
  · exact absurd rfl h

theorem ipFill_missing_ok (desc : String) (d : List (String × PyJson)) (fb : String)
    (hm : imagePromptMissing (dictGet d "image_prompt" (.str "")) = true)
    (hfb : getFallbackImagePrompt desc (dictGet d "caption" (.str "")) = .ok fb) :
    ipFill desc d = .ok (dictSet d "image_prompt" (.str fb)) := by
  unfold ipFill
  rw [if_pos hm, hfb]

theorem ipFill_missing_error (desc : String) (d : List (String × PyJson)) (e : String)
    (hm : imagePromptMissing (dictGet d "image_prompt" (.str "")) = true)
    (hfb : getFallbackImagePrompt desc (dictGet d "caption" (.str "")) = .error e) :
    ipFill desc d = .error e := by
  unfold ipFill
  rw [if_pos hm, hfb]

theorem ipFill_present (desc : String) (d : List (String × PyJson))
    (hm : imagePromptMissing (dictGet d "image_prompt" (.str "")) = false) :
    ipFill desc d = .ok d := by
  unfold ipFill
  rw [if_neg (by rw [hm]; exact Bool.false_ne_true)]

theorem ipFill_ok_cases (desc : String) (d d0 : List (String × PyJson))
    (h : ipFill desc d = .ok d0) :
    (imagePromptMissing (dictGet d "image_prompt" (.str "")) = false ∧ d0 = d) ∨
    (imagePromptMissing (dictGet d "image_prompt" (.str "")) = true ∧
      ∃ fb, getFallbackImagePrompt desc (dictGet d "caption" (.str "")) = .ok fb ∧
        d0 = dictSet d "image_prompt" (.str fb)) := by
  by_cases hm : imagePromptMissing (dictGet d "image_prompt" (.str "")) = true
  · right
    refine ⟨hm, ?_⟩
    rcases hfb : getFallbackImagePrompt desc (dictGet d "caption" (.str "")) with e | fb
    · rw [ipFill_missing_error desc d e hm hfb] at h
      exact absurd h (by simp)
    · rw [ipFill_missing_ok desc d fb hm hfb] at h
      injection h with h2
      exact ⟨fb, rfl, h2.symm⟩
  · have hm2 := bool_eq_false hm
    rw [ipFill_present desc d hm2] at h
    injection h with h2
    exact Or.inl ⟨hm2, h2.symm⟩

theorem ipFill_ok_contains (desc : String) (d d0 : List (String × PyJson))
    (h : ipFill desc d = .ok d0) : dictContains d0 "image_prompt" = true := by
  rcases ipFill_ok_cases desc d d0 h with ⟨hm, h0⟩ | ⟨_, fb, _, h0⟩
  · rw [h0]
    unfold dictContains
    rcases hl : d.lookup "image_prompt" with _ | v
    · exfalso
      rw [show dictGet d "image_prompt" (.str "") = .str "" from by
        unfold dictGet; rw [hl]] at hm
      exact absurd hm (by decide)
    · rfl
  · rw [h0]
    unfold dictContains
    rw [dictSet_lookup_self]
    rfl

theorem backfillJson_ok (desc : String) (d d0 : List (String × PyJson))
    (h : ipFill desc d = .ok d0) :
    backfillJson desc d =
      .ok (padKey (padKey (padKey (padKey (padKey (padKey (padKey
        d0 "negative_prompt" (.str "text, watermark, blurry"))
        "text_position" (.str "bottom"))
        "caption" (.str ("Meme about " ++ pySliceToI desc 30)))
        "keywords" (.arr []))
        "use_cases" (.arr []))
        "intent" (.str ""))
        "template_slots" (.obj [])) := by
  unfold backfillJson
  rw [h]

theorem backfillJson_error (desc : String) (d : List (String × PyJson)) (e : String)
    (h : ipFill desc d = .error e) : backfillJson desc d = .error e := by
  unfold backfillJson
  rw [h]

theorem backfill_contains_all (desc : String) (d r : List (String × PyJson))
    (h : backfillJson desc d = .ok r) :
    ∀ k ∈ ["image_prompt", "negative_prompt", "text_position", "caption",
           "keywords", "use_cases", "intent", "template_slots"],
      dictContains r k = true := by
  rcases hip : ipFill desc d with e | d0
  · rw [backfillJson_error desc d e hip] at h
    exact absurd h (by simp)
  · rw [backfillJson_ok desc d d0 hip] at h
    injection h with h2
    subst h2
    intro k hk
    fin_cases hk
    · exact padKey_contains_mono _ _ _ _ (padKey_contains_mono _ _ _ _
        (padKey_contains_mono _ _ _ _ (padKey_contains_mono _ _ _ _
        (padKey_contains_mono _ _ _ _ (padKey_contains_mono _ _ _ _
        (padKey_contains_mono _ _ _ _ (ipFill_ok_contains desc d d0 hip)))))))
    · exact padKey_contains_mono _ _ _ _ (padKey_contains_mono _ _ _ _
        (padKey_contains_mono _ _ _ _ (padKey_contains_mono _ _ _ _
        (padKey_contains_mono _ _ _ _ (padKey_contains_mono _ _ _ _
        (padKey_contains_self _ _ _))))))
    · exact padKey_contains_mono _ _ _ _ (padKey_contains_mono _ _ _ _
        (padKey_contains_mono _ _ _ _ (padKey_contains_mono _ _ _ _
        (padKey_contains_mono _ _ _ _ (padKey_contains_self _ _ _)))))
    · exact padKey_contains_mono _ _ _ _ (padKey_contains_mono _ _ _ _
        (padKey_contains_mono _ _ _ _ (padKey_contains_mono _ _ _ _
        (padKey_contains_self _ _ _))))
    · exact padKey_contains_mono _ _ _ _ (padKey_contains_mono _ _ _ _
        (padKey_contains_mono _ _ _ _ (padKey_contains_self _ _ _)))
    · exact padKey_contains_mono _ _ _ _ (padKey_contains_mono _ _ _ _
        (padKey_contains_self _ _ _))
    · exact padKey_contains_mono _ _ _ _ (padKey_contains_self _ _ _)
    · exact padKey_contains_self _ _ _

/-- Claim C7 (code bug): the backfill step unconditionally ensures the
`keywords` key is present in every record it produces, but the strict
`LlamaOutput` schema declares only `image_prompt`, `negative_prompt`,
`caption` and `text_position` with `extra = "forbid"` — so strict validation
rejects EVERY record the backfill produces, and no concept record carrying
`keywords`/`use_cases`/`intent`/`template_slots` can ever pass it. -/
theorem C7_strict_validation_rejects_backfilled (desc : String)
    (json_data r : List (String × PyJson))
    (h : backfillJson desc json_data = .ok r) :
    validateLlamaOutput r = .error "extra fields not permitted" := by
  have hkw : dictContains r "keywords" = true :=
    backfill_contains_all desc json_data r h "keywords" (by simp)
  unfold dictContains at hkw
  obtain ⟨v, hv⟩ := Option.isSome_iff_exists.mp hkw
  have hany : r.any (fun p => !llamaOutputFields.contains p.1) = true := by
    rw [List.any_eq_true]
    exact ⟨("keywords", v), lookup_mem hv, by
      show (!llamaOutputFields.contains "keywords") = true
      decide⟩
  unfold validateLlamaOutput
  rw [hany, if_pos rfl]

theorem C7_strict_validation_rejects_backfilled_witness :
    validateLlamaOutput
        [("image_prompt", PyJson.str
            "A funny and relatable meme scene related to: x. High quality, vibrant, meme style."),
         ("negative_prompt", .str "text, watermark, blurry"),
         ("text_position", .str "bottom"),
         ("caption", .str "Meme about x"),
         ("keywords", .arr []),
         ("use_cases", .arr []),
         ("intent", .str ""),
         ("template_slots", .obj [])] =
      .error "extra fields not permitted" :=
  C7_strict_validation_rejects_backfilled "x" [] _ rfl

/-- Claim C8 (counterexample): the default substituted for a missing
`caption` is `f"Meme about \x7bcompany_description[:30]\x7d"`, which varies
with the request text — not a fixed documented constant; and the backfill is
not raise-free: with a missing `image_prompt` and the truthy non-string
caption `7`, `_get_fallback_image_prompt` raises `TypeError` at
`len(base_topic)`. -/
theorem C8_backfill_counterexample :
    (∃ r, backfillJson "smart umbrellas" [] = .ok r ∧
        r.lookup "caption" = some (.str "Meme about smart umbrellas")) ∧
    (∃ r, backfillJson "robot lawyers" [] = .ok r ∧
        r.lookup "caption" = some (.str "Meme about robot lawyers")) ∧
    ("Meme about smart umbrellas" : String) ≠ "Meme about robot lawyers" ∧
    backfillJson "smart umbrellas" [("caption", PyJson.num 7)] =
      .error "TypeError: object of type 'int' has no len()" :=
  ⟨⟨_, rfl, rfl⟩, ⟨_, rfl, rfl⟩, by decide, rfl⟩

/-- Claim C8 (amended): the backfill returns a record exactly when the
image-prompt fallback is not needed or its computation does not raise (it
raises `TypeError` for a truthy non-string caption of raising shape when
`image_prompt` is empty or missing); any error is that `TypeError`.  On
every record it returns, all eight keys are present; a missing
`negative_prompt`/`text_position`/`keywords`/`use_cases`/`intent`/
`template_slots` receives its fixed default, while a missing `caption`
receives `"Meme about " + description[:30]` — a default derived from the
request text; an empty or missing `image_prompt` is replaced by the
synthesized fallback; every other present field passes through unchanged. -/
theorem C8_backfill_defaults_amended (desc : String) (d : List (String × PyJson)) :
    ((imagePromptMissing (dictGet d "image_prompt" (.str "")) = false ∨
      (∃ fb, getFallbackImagePrompt desc (dictGet d "caption" (.str "")) = .ok fb)) ↔
      ∃ r, backfillJson desc d = .ok r) ∧
    (∀ e, backfillJson desc d = .error e →
      getFallbackImagePrompt desc (dictGet d "caption" (.str "")) = .error e) ∧
    ∀ r, backfillJson desc d = .ok r →
      (∀ k ∈ ["image_prompt", "negative_prompt", "text_position", "caption",
              "keywords", "use_cases", "intent", "template_slots"],
          dictContains r k = true) ∧
      (dictContains d "negative_prompt" = false →
          r.lookup "negative_prompt" = some (.str "text, watermark, blurry")) ∧
      (dictContains d "text_position" = false →
          r.lookup "text_position" = some (.str "bottom")) ∧
      (dictContains d "caption" = false →
          r.lookup "caption" = some (.str ("Meme about " ++ pySliceToI desc 30))) ∧
      (dictContains d "keywords" = false → r.lookup "keywords" = some (.arr [])) ∧
      (dictContains d "use_cases" = false → r.lookup "use_cases" = some (.arr [])) ∧
      (dictContains d "intent" = false → r.lookup "intent" = some (.str "")) ∧
      (dictContains d "template_slots" = false →
          r.lookup "template_slots" = some (.obj [])) ∧
      (∀ fb, imagePromptMissing (dictGet d "image_prompt" (.str "")) = true →
          getFallbackImagePrompt desc (dictGet d "caption" (.str "")) = .ok fb →
          r.lookup "image_prompt" = some (.str fb)) ∧
      (∀ k v, d.lookup k = some v →
          (k = "image_prompt" →
            imagePromptMissing (dictGet d "image_prompt" (.str "")) = false) →
          r.lookup k = some v) := by
  refine ⟨⟨?_, ?_⟩, ?_, ?_⟩
  · rintro (hm | ⟨fb, hfb⟩)
    · exact ⟨_, backfillJson_ok desc d d (ipFill_present desc d hm)⟩
    · by_cases hm : imagePromptMissing (dictGet d "image_prompt" (.str "")) = true
      · exact ⟨_, backfillJson_ok desc d _ (ipFill_missing_ok desc d fb hm hfb)⟩
      · exact ⟨_, backfillJson_ok desc d d (ipFill_present desc d (bool_eq_false hm))⟩
  · rintro ⟨r, hr⟩
    by_cases hm : imagePromptMissing (dictGet d "image_prompt" (.str "")) = true
    · rcases hfb : getFallbackImagePrompt desc (dictGet d "caption" (.str "")) with e | fb
      · rw [backfillJson_error desc d e (ipFill_missing_error desc d e hm hfb)] at hr
        exact absurd hr (by simp)
      · exact Or.inr ⟨fb, rfl⟩
    · exact Or.inl (bool_eq_false hm)
  · intro e he
    by_cases hm : imagePromptMissing (dictGet d "image_prompt" (.str "")) = true
    · rcases hfb : getFallbackImagePrompt desc (dictGet d "caption" (.str "")) with e2 | fb
      · rw [backfillJson_error desc d e2 (ipFill_missing_error desc d e2 hm hfb)] at he
        injection he with he2
        rw [he2]
      · rw [backfillJson_ok desc d _ (ipFill_missing_ok desc d fb hm hfb)] at he
        exact absurd he (by simp)
    · rw [backfillJson_ok desc d d (ipFill_present desc d (bool_eq_false hm))] at he
      exact absurd he (by simp)
  · intro r hr
    rcases hip : ipFill desc d with e | d0
    · rw [backfillJson_error desc d e hip] at hr
      exact absurd hr (by simp)
    · rw [backfillJson_ok desc d d0 hip] at hr
      injection hr with hr2
      subst hr2
      have hd0ne : ∀ k' : String, k' ≠ "image_prompt" →
          d0.lookup k' = d.lookup k' := by
        intro k' hk'
        rcases ipFill_ok_cases desc d d0 hip with ⟨_, h0⟩ | ⟨_, fb, _, h0⟩
        · rw [h0]
        · rw [h0]
          exact dictSet_lookup_ne d _ _ k' hk'
      have hd0cne : ∀ k' : String, k' ≠ "image_prompt" →
          dictContains d0 k' = dictContains d k' := by
        intro k' hk'
        unfold dictContains
        rw [hd0ne k' hk']
      refine ⟨?_, ?_, ?_, ?_, ?_, ?_, ?_, ?_, ?_, ?_⟩
      · exact backfill_contains_all desc d _ (backfillJson_ok desc d d0 hip)
      · intro h
        rw [padKey_lookup_ne _ _ _ _ (by decide), padKey_lookup_ne _ _ _ _ (by decide),
          padKey_lookup_ne _ _ _ _ (by decide), padKey_lookup_ne _ _ _ _ (by decide),
          padKey_lookup_ne _ _ _ _ (by decide), padKey_lookup_ne _ _ _ _ (by decide)]
        apply padKey_lookup_missing
        rw [hd0cne _ (by decide)]
        exact h
      · intro h
        rw [padKey_lookup_ne _ _ _ _ (by decide), padKey_lookup_ne _ _ _ _ (by decide),
          padKey_lookup_ne _ _ _ _ (by decide), padKey_lookup_ne _ _ _ _ (by decide),
          padKey_lookup_ne _ _ _ _ (by decide)]
        apply padKey_lookup_missing
        rw [padKey_contains_ne _ _ _ _ (by decide), hd0cne _ (by decide)]
        exact h
      · intro h
        rw [padKey_lookup_ne _ _ _ _ (by decide), padKey_lookup_ne _ _ _ _ (by decide),
          padKey_lookup_ne _ _ _ _ (by decide), padKey_lookup_ne _ _ _ _ (by decide)]
        apply padKey_lookup_missing
        rw [padKey_contains_ne _ _ _ _ (by decide), padKey_contains_ne _ _ _ _ (by decide),
          hd0cne _ (by decide)]
        exact h
      · intro h
        rw [padKey_lookup_ne _ _ _ _ (by decide), padKey_lookup_ne _ _ _ _ (by decide),
          padKey_lookup_ne _ _ _ _ (by decide)]
        apply padKey_lookup_missing
        rw [padKey_contains_ne _ _ _ _ (by decide), padKey_contains_ne _ _ _ _ (by decide),
          padKey_contains_ne _ _ _ _ (by decide), hd0cne _ (by decide)]
        exact h
      · intro h
        rw [padKey_lookup_ne _ _ _ _ (by decide), padKey_lookup_ne _ _ _ _ (by decide)]
        apply padKey_lookup_missing
        rw [padKey_contains_ne _ _ _ _ (by decide), padKey_contains_ne _ _ _ _ (by decide),
          padKey_contains_ne _ _ _ _ (by decide), padKey_contains_ne _ _ _ _ (by decide),
          hd0cne _ (by decide)]
        exact h
      · intro h
        rw [padKey_lookup_ne _ _ _ _ (by decide)]
        apply padKey_lookup_missing
        rw [padKey_contains_ne _ _ _ _ (by decide), padKey_contains_ne _ _ _ _ (by decide),
          padKey_contains_ne _ _ _ _ (by decide), padKey_contains_ne _ _ _ _ (by decide),
          padKey_contains_ne _ _ _ _ (by decide), hd0cne _ (by decide)]
        exact h
      · intro h
        apply padKey_lookup_missing
        rw [padKey_contains_ne _ _ _ _ (by decide), padKey_contains_ne _ _ _ _ (by decide),
          padKey_contains_ne _ _ _ _ (by decide), padKey_contains_ne _ _ _ _ (by decide),
          padKey_contains_ne _ _ _ _ (by decide), padKey_contains_ne _ _ _ _ (by decide),
          hd0cne _ (by decide)]
        exact h
      · intro fb hm hfb
        rw [padKey_lookup_ne _ _ _ _ (by decide), padKey_lookup_ne _ _ _ _ (by decide),
          padKey_lookup_ne _ _ _ _ (by decide), padKey_lookup_ne _ _ _ _ (by decide),
          padKey_lookup_ne _ _ _ _ (by decide), padKey_lookup_ne _ _ _ _ (by decide),
          padKey_lookup_ne _ _ _ _ (by decide)]
        rcases ipFill_ok_cases desc d d0 hip with ⟨hm2, _⟩ | ⟨_, fb2, hfb2, h0⟩
        · rw [hm] at hm2
          exact absurd hm2 (by simp)
        · have he : (Except.ok fb2 : Except String String) = .ok fb :=
            hfb2.symm.trans hfb
          injection he with he2
          subst he2
          rw [h0]
          exact dictSet_lookup_self _ _ _
      · intro k v hkv hg
        by_cases hk : k = "image_prompt"
        · subst hk
          rw [padKey_lookup_ne _ _ _ _ (by decide), padKey_lookup_ne _ _ _ _ (by decide),
            padKey_lookup_ne _ _ _ _ (by decide), padKey_lookup_ne _ _ _ _ (by decide),
            padKey_lookup_ne _ _ _ _ (by decide), padKey_lookup_ne _ _ _ _ (by decide),
            padKey_lookup_ne _ _ _ _ (by decide)]
          rcases ipFill_ok_cases desc d d0 hip with ⟨_, h0⟩ | ⟨hm, _, _, _⟩
          · rw [h0]
            exact hkv
          · rw [hg rfl] at hm
            exact absurd hm (by simp)
        · exact padKey_lookup_some _ _ _ _ _ (padKey_lookup_some _ _ _ _ _
            (padKey_lookup_some _ _ _ _ _ (padKey_lookup_some _ _ _ _ _
            (padKey_lookup_some _ _ _ _ _ (padKey_lookup_some _ _ _ _ _
            (padKey_lookup_some _ _ _ _ _ (by rw [hd0ne k hk]; exact hkv)))))))

theorem C8_backfill_defaults_witness :
    dictContains ([] : List (String × PyJson)) "caption" = false ∧
    ∃ r, backfillJson "gadgets" [] = .ok r ∧
      r.lookup "caption" = some (.str ("Meme about " ++ pySliceToI "gadgets" 30)) :=
  ⟨by decide,
   ⟨_, rfl, ((C8_backfill_defaults_amended "gadgets" []).2.2 _ rfl).2.2.2.1 (by decide)⟩⟩
